import Mathlib

/-!
Shallow embedding of the `sih` repository's predictive-analytics and SMS
modules (`src/api/predictive_analytics.py`, `src/api/sms_service.py`),
together with theorems settling the frozen claims about them.

Modelling conventions:
* Python floats are modelled exactly as rationals (`ℚ`); the numeric
  literals the claims pin down (0.3, 0.6, 0.7, thresholds 5/3/2/0.1) are
  exact decimals, where rational and IEEE-754 comparison agree.
* Timestamps are modelled at day granularity (`ℕ` days) for the weekly
  bucketing, and at second granularity (`Int`) for the SMS rate limiter.
* Python exceptions are modelled with `Except`/`Option`; a function that
  the source wraps in `try/except` is given the handler's value on the
  error branch.
* External collaborators (the generative-AI call, the SMS gateway HTTP
  transport, `json.loads`) are passed in as explicit parameters/oracles,
  exactly at the boundary where the source calls them.
-/

/- Batteries seals the `Rat` arithmetic operations as `@[irreducible]`,
which only affects elaboration-time unfolding, not kernel reduction.
Re-opening them lets `decide` evaluate concrete rational arithmetic in
witnesses and counterexamples; proofs still go through the kernel with
the standard axioms only. -/
set_option allowUnsafeReducibility true in
attribute [semireducible] Rat.add Rat.sub Rat.mul Rat.inv Rat.ofScientific

namespace Sih

/-- Severity / prediction levels (the strings "low"/"medium"/"high" in the
source dictionaries). -/
inductive Sev
  | low
  | medium
  | high
  deriving DecidableEq, Repr

/-- Trend classification (the strings "increasing"/"decreasing"/"stable"). -/
inductive Trend
  | increasing
  | decreasing
  | stable
  deriving DecidableEq, Repr

/-- The severity heuristic of `_analyze_trends`
(`predictive_analytics.py` lines 184-186):
`'high' if recent_frequency > 5 or (trend == 'increasing' and recent_frequency > 3) else
 'medium' if recent_frequency > 2 or trend == 'increasing' else 'low'`. -/
def predictionOf (trend : Trend) (freq : ℚ) : Sev :=
  if freq > 5 ∨ (trend = Trend.increasing ∧ freq > 3) then Sev.high
  else if freq > 2 ∨ trend = Trend.increasing then Sev.medium
  else Sev.low

/-- The severity heuristic transcribed from the specification's own words
(spec section 4.3): rule 1 `frequency > 5, OR (trend == increasing AND
frequency > 3) ⇒ high`; rule 2 `else frequency > 2 OR trend == increasing ⇒
medium`; rule 3 `else ⇒ low`, evaluated in this exact precedence. -/
def specSeverity (trend : Trend) (freq : ℚ) : Sev :=
  if freq > 5 ∨ (trend = Trend.increasing ∧ freq > 3) then Sev.high
  else if freq > 2 ∨ trend = Trend.increasing then Sev.medium
  else Sev.low

/-- Mean of a list of rationals; division by zero yields 0 in `ℚ`, which
matches the source's explicit `if not weekly_counts.empty else 0` guard. -/
def meanQ (l : List ℚ) : ℚ := l.sum / l.length

/-- The `ℕ → ℚ` cast as a named function. -/
def natCastQ (n : ℕ) : ℚ := n

/-- Weekly bucketing of creation timestamps (day numbers), modelling
`df.resample('W', on='created_at').size()`: consecutive 7-day buckets from
the bucket containing the earliest report to the bucket containing the
latest, each holding the number of reports falling in it.  (Pandas aligns
buckets to calendar weeks ending Sunday; the embedding aligns them to
`t / 7`, which is the same bucketing up to a constant phase that none of
the claims depend on.) -/
def weeklyCounts (ts : List ℕ) : List ℕ :=
  match ts with
  | [] => []
  | t :: rest =>
    let ws := (t :: rest).map (· / 7)
    let lo := ws.foldl min (t / 7)
    let hi := ws.foldl max (t / 7)
    (List.range (hi + 1 - lo)).map (fun k => ws.count (lo + k))

/-- Least-squares slope of `np.polyfit(range(n), ys, 1)[0]` with
`x = 0, 1, …, n-1`, computed exactly over `ℚ`:
`(n·Σxy − Σx·Σy) / (n·Σx² − (Σx)²)`. -/
def slopeOf (ys : List ℚ) : ℚ :=
  let n : ℚ := ys.length
  let xs : List ℚ := (List.range ys.length).map natCastQ
  let sx := xs.sum
  let sy := ys.sum
  let sxy := (xs.zip ys).foldl (fun a p => a + p.1 * p.2) 0
  let sxx := xs.foldl (fun a x => a + x * x) 0
  (n * sxy - sx * sy) / (n * sxx - sx * sx)

/-- Result record of `_analyze_trends` (`{'trend': …, 'frequency': …,
'prediction': …}`). -/
structure TrendResult where
  trend : Trend
  frequency : ℚ
  prediction : Sev
  deriving DecidableEq, Repr

/-- Last `n` elements of a list, modelling `weekly_counts[-4:]`. -/
def lastN (n : ℕ) (l : List ℚ) : List ℚ := l.drop (l.length - n)

/-- `_analyze_trends` (`predictive_analytics.py` lines 157-192): empty
frame ⇒ `{stable, 0, low}`; fewer than 2 weekly buckets ⇒ `{stable,
mean-of-buckets, low}`; otherwise fit the least-squares slope, classify by
the ±0.1 thresholds, take the mean of the last 4 buckets as the recent
frequency and apply the severity heuristic. -/
def analyzeTrends (times : List ℕ) : TrendResult :=
  match times with
  | [] => ⟨Trend.stable, 0, Sev.low⟩
  | _ :: _ =>
    let wc : List ℚ := (weeklyCounts times).map natCastQ
    if wc.length < 2 then ⟨Trend.stable, meanQ wc, Sev.low⟩
    else
      let slope := slopeOf wc
      let trend :=
        if slope > 1/10 then Trend.increasing
        else if slope < -(1/10) then Trend.decreasing
        else Trend.stable
      let rf := meanQ (lastN 4 wc)
      ⟨trend, rf, predictionOf trend rf⟩

/-! ## Reports and the geofilter (`_process_historical_data`) -/

/-- A raw report dictionary as handed to `_process_historical_data`.
`none` models a missing key (or, for `createdAt`, a value
`pd.to_datetime` cannot parse); `location` collapses
`report['location']['lat']`/`['lng']` into one optional pair. -/
structure RawReport where
  location : Option (ℚ × ℚ)
  severity : Option String
  createdAt : Option ℕ
  rtype : Option String
  verified : Option String
  fixingStatus : Option String
  deriving DecidableEq, Repr

/-- One row of the DataFrame built by `_process_historical_data`. -/
structure ProcessedReport where
  latitude : ℚ
  longitude : ℚ
  severity : String
  createdAt : ℕ
  rtype : String
  verified : String
  fixingStatus : String
  deriving DecidableEq, Repr

/-- Squared Euclidean degree-distance between two (lat, lng) pairs. -/
def dist2 (p q : ℚ × ℚ) : ℚ := (p.1 - q.1) ^ 2 + (p.2 - q.2) ^ 2

/-- The geofilter's radius test at its default `radius_km = 5`
(the only radius its callers use):
`np.sqrt((Δlat)² + (Δlng)²) * 111 <= 5`, squared to stay in `ℚ`
(both sides are nonnegative, so squaring is exact): `d² · 111² ≤ 5²`. -/
abbrev inRadius (loc p : ℚ × ℚ) : Prop := dist2 p loc * 12321 ≤ 25

/-- `_process_historical_data` (`predictive_analytics.py` lines 99-126).
Reports are scanned in order; `location` is read unconditionally, the
remaining required fields only for in-radius reports.  A missing required
field raises (the `none` result), aborting the whole batch — there is no
per-record `try/except` in the source. -/
def processHistoricalData (reports : List RawReport) (loc : ℚ × ℚ) :
    Option (List ProcessedReport) :=
  match reports with
  | [] => some []
  | r :: rs =>
    match r.location with
    | none => none
    | some p =>
      if inRadius loc p then
        match r.severity, r.createdAt, r.verified, r.fixingStatus with
        | some s, some t, some v, some f =>
          (processHistoricalData rs loc).map
            (fun tail => ⟨p.1, p.2, s, t, r.rtype.getD "pothole", v, f⟩ :: tail)
        | _, _, _, _ => none
      else processHistoricalData rs loc

/-- A report on which `_process_historical_data` raises at target `loc`:
its `location` is missing, or it lies in the radius and one of the fields
the in-radius branch reads (`severity`, `createdAt`, `verified`,
`fixingStatus`) is missing/unparseable. -/
def badAt (loc : ℚ × ℚ) (r : RawReport) : Bool :=
  match r.location with
  | none => true
  | some p =>
    decide (inRadius loc p) &&
      (r.severity.isNone || r.createdAt.isNone || r.verified.isNone ||
        r.fixingStatus.isNone)

/-- The row a single report contributes when the batch succeeds:
`some` for a well-formed in-radius report, `none` for an out-of-radius
one. -/
def rowOf (loc : ℚ × ℚ) (r : RawReport) : Option ProcessedReport :=
  match r.location with
  | none => none
  | some p =>
    if inRadius loc p then
      match r.severity, r.createdAt, r.verified, r.fixingStatus with
      | some s, some t, some v, some f =>
        some ⟨p.1, p.2, s, t, r.rtype.getD "pothole", v, f⟩
      | _, _, _, _ => none
    else none

/-- The `created_at` column of a processed frame. -/
def reportTimes (rpts : List ProcessedReport) : List ℕ := rpts.map (·.createdAt)

/-- The `[['latitude', 'longitude']]` columns of a processed frame. -/
def reportCoords (rpts : List ProcessedReport) : List (ℚ × ℚ) :=
  rpts.map (fun r => (r.latitude, r.longitude))

/-! ## Hotspot clustering (`_identify_hotspots`)

`sklearn.cluster.DBSCAN(eps=0.1/111, min_samples=3)` is embedded as the
algorithm sklearn documents and implements: points with at least
`min_samples` neighbours within `eps` (themselves included) are core
points; clusters are grown from unlabelled core points, in index order,
by a work-list expansion that labels every point reachable from the seed
through core points; a point already claimed by an earlier cluster is
never relabelled; points never labelled are noise (`-1`, here `none`). -/

/-- `eps_degrees²` for `eps_km = 0.1`: `(0.1 / 111)² = (1/1110)²`. -/
def eps2 : ℚ := (1 / 1110) ^ 2

/-- Indices of the points within `eps` of point `i` (including `i`), in
index order — the neighbourhood sklearn computes with `d ≤ eps`. -/
def nbrs (pts : List (ℚ × ℚ)) (i : ℕ) : List ℕ :=
  (List.range pts.length).filter
    (fun j => decide (dist2 (pts.getD i (0, 0)) (pts.getD j (0, 0)) ≤ eps2))

/-- Core point: at least `min_samples = 3` neighbours within `eps`. -/
abbrev isCore (pts : List (ℚ × ℚ)) (i : ℕ) : Prop := 3 ≤ (nbrs pts i).length

/-- Work-list cluster expansion: pop an index; if it is still unlabelled,
label it with the current cluster id and, when it is a core point, push
its whole neighbourhood.  `fuel` dominates the number of iterations; the
development proves `expandFuel` is always enough. -/
def expand (pts : List (ℚ × ℚ)) (cl : ℕ) :
    ℕ → List (Option ℕ) → List ℕ → List (Option ℕ)
  | 0, labels, _ => labels
  | _ + 1, labels, [] => labels
  | fuel + 1, labels, i :: rest =>
    if labels.getD i none = none then
      if isCore pts i then
        expand pts cl fuel (labels.set i (some cl)) (nbrs pts i ++ rest)
      else expand pts cl fuel (labels.set i (some cl)) rest
    else expand pts cl fuel labels rest

/-- Fuel that always suffices for `expand` on `n` points. -/
def expandFuel (n : ℕ) : ℕ := n * n + n + 1

/-- Outer DBSCAN loop: scan indices in order; each still-unlabelled core
point seeds a new cluster. -/
def dbscanGo (pts : List (ℚ × ℚ)) :
    List ℕ → List (Option ℕ) → ℕ → List (Option ℕ)
  | [], labels, _ => labels
  | i :: is, labels, cl =>
    if labels.getD i none = none ∧ isCore pts i then
      dbscanGo pts is (expand pts cl (expandFuel pts.length) labels [i]) (cl + 1)
    else dbscanGo pts is labels cl

/-- `clustering.labels_`: `some c` is cluster id `c`, `none` is noise. -/
def dbscanLabels (pts : List (ℚ × ℚ)) : List (Option ℕ) :=
  dbscanGo pts (List.range pts.length) (List.replicate pts.length none) 0

/-- `set(clustering.labels_)` minus the noise id. -/
def clusterIds (labels : List (Option ℕ)) : List ℕ := (labels.filterMap id).dedup

/-- Member indices of cluster `c`
(`coords[clustering.labels_ == cluster_id]`). -/
def clusterMembers (pts : List (ℚ × ℚ)) (labels : List (Option ℕ)) (c : ℕ) :
    List ℕ :=
  (List.range pts.length).filter (fun i => decide (labels.getD i none = some c))

/-- A hotspot dictionary (`{'lat', 'lng', 'intensity', 'count'}`). -/
structure Hotspot where
  lat : ℚ
  lng : ℚ
  intensity : ℚ
  count : ℕ
  deriving DecidableEq, Repr

/-- Build the hotspot record of a cluster: centroid = columnwise mean of
the members' coordinates, `intensity = min(1.0, count / 10)`. -/
def hotspotOf (pts : List (ℚ × ℚ)) (mem : List ℕ) : Hotspot :=
  { lat := meanQ (mem.map (fun i => (pts.getD i (0, 0)).1))
    lng := meanQ (mem.map (fun i => (pts.getD i (0, 0)).2))
    intensity := min 1 ((mem.length : ℚ) / 10)
    count := mem.length }

/-- `_identify_hotspots` (`predictive_analytics.py` lines 128-155). -/
def identifyHotspots (pts : List (ℚ × ℚ)) : List Hotspot :=
  if pts.isEmpty then []
  else
    let labels := dbscanLabels pts
    (clusterIds labels).map (fun c => hotspotOf pts (clusterMembers pts labels c))

/-! ## Keyword-mode AI response parsing (`_parse_ai_response`)

`response_text.lower()` and the regex
`confidence[\s:]+([0-9.]+)` are embedded over ASCII (the token and both
character classes are pure ASCII; the embedding lowers only ASCII letters
and takes `\s` to the six ASCII whitespace characters). -/

/-- `str.lower()` restricted to ASCII letters. -/
def asciiLower (s : String) : String := String.mk (s.data.map Char.toLower)

/-- Whether `needle` occurs as a contiguous sublist of `hay`. -/
def listContainsSub (needle : List Char) : List Char → Bool
  | [] => needle.isEmpty
  | c :: t => needle.isPrefixOf (c :: t) || listContainsSub needle t

/-- Python's `needle in hay` on strings. -/
def strContains (hay needle : String) : Bool := listContainsSub needle.data hay.data

/-- Python regex `\s` over ASCII. -/
def isPySpace (c : Char) : Bool :=
  c = ' ' || c = '\t' || c = '\n' || c = '\r' || c = '\x0b' || c = '\x0c'

/-- The `[\s:]` character class. -/
def isSepChar (c : Char) : Bool := isPySpace c || c = ':'

/-- The `[0-9.]` character class. -/
def isNumChar (c : Char) : Bool := c.isDigit || c = '.'

/-- Try to match `confidence[\s:]+([0-9.]+)` at the head of `l`, returning
the captured `[0-9.]+` run.  Greedy maximal munch is exact here because the
two character classes are disjoint. -/
def confMatchAt (l : List Char) : Option (List Char) :=
  if "confidence".data.isPrefixOf l then
    let rest := l.drop 10
    let seps := rest.takeWhile isSepChar
    if seps.isEmpty then none
    else
      let num := (rest.drop seps.length).takeWhile isNumChar
      if num.isEmpty then none else some num
  else none

/-- Leftmost match of the confidence regex: `re.findall(...)[0]`. -/
def confScan : List Char → Option (List Char)
  | [] => none
  | c :: cs =>
    match confMatchAt (c :: cs) with
    | some m => some m
    | none => confScan cs

/-- Decimal value of a digit string. -/
def digitsToNat (l : List Char) : ℕ := l.foldl (fun a c => 10 * a + c.toNat - 48) 0

/-- Python `float(s)` for a nonempty string drawn from `[0-9.]`: defined
exactly when the string has at least one digit and at most one dot,
raising `ValueError` (`none`) otherwise. -/
def pyFloatQ (l : List Char) : Option ℚ :=
  if l.any Char.isDigit ∧ l.count '.' ≤ 1 then
    let ip := l.takeWhile (fun c => c != '.')
    let fp := (l.drop ip.length).drop 1
    some ((digitsToNat ip : ℚ) + (digitsToNat fp : ℚ) / (10 : ℚ) ^ fp.length)
  else none

/-- The `trends` sub-dictionary of the keyword-mode parse. -/
structure AiTrends where
  description : String
  recommendations : List String
  deriving DecidableEq, Repr

/-- Result dictionary of `_parse_ai_response`. -/
structure ParseResult where
  severity : Sev
  confidence : ℚ
  trends : AiTrends
  deriving DecidableEq, Repr

/-- The value returned by `_parse_ai_response`'s `except` handler. -/
def defaultParseResult : ParseResult :=
  ⟨Sev.medium, 1/2, ⟨"Error parsing AI response", []⟩⟩

/-- Severity keyword groups, tried in dictionary order high → medium →
low, first matching group wins, default medium. -/
def severityOf (lower : String) : Sev :=
  if ["high", "severe", "critical", "dangerous"].any (strContains lower) then Sev.high
  else if ["medium", "moderate", "intermediate"].any (strContains lower) then Sev.medium
  else if ["low", "minor", "minimal"].any (strContains lower) then Sev.low
  else Sev.medium

/-- The trend-description extraction raises `IndexError` exactly when
`'trend' in response_text.lower()` holds but the original (un-lowered)
text has no occurrence of `'trend'`, since the source splits the
*original* text: `response_text.split('trend')[1]`. -/
def trendRaises (text : String) : Bool :=
  strContains (asciiLower text) "trend" && !(strContains text "trend")

/-- `response_text.split('trend')[1].split('\n')[0].strip()`, guarded by
`'trend' in response_text.lower()` (empty string otherwise). -/
def descOf (text : String) : String :=
  if strContains (asciiLower text) "trend" then
    ((((text.splitOn "trend").getD 1 "").splitOn "\n").getD 0 "").trim
  else ""

/-- Lines containing a recommendation keyword, whitespace-trimmed. -/
def recsOf (text : String) : List String :=
  ((text.splitOn "\n").filter (fun line =>
    ["recommend", "suggest", "should", "need to"].any
      (strContains (asciiLower line)))).map String.trim

/-- `_parse_ai_response` (`predictive_analytics.py` lines 223-278).
A `ValueError` from `float(...)` or the `IndexError` from the trend split
lands in the `except` handler, which returns `defaultParseResult`; the
handler itself cannot raise, so the function is total. -/
def parseAiResponse (text : String) : ParseResult :=
  match confScan (asciiLower text).data with
  | none =>
    if trendRaises text then defaultParseResult
    else ⟨severityOf (asciiLower text), 7 / 10, ⟨descOf text, recsOf text⟩⟩
  | some m =>
    match pyFloatQ m with
    | none => defaultParseResult
    | some c =>
      if trendRaises text then defaultParseResult
      else ⟨severityOf (asciiLower text), min 1 (max 0 c), ⟨descOf text, recsOf text⟩⟩

/-! ## The prediction blender (`predict_pothole_conditions`) -/

/-- Result dictionary of `predict_pothole_conditions`; the `trends` field
is flattened into its `ai` (optional) and `statistical` components. -/
structure PredictionResult where
  predictedSeverity : Sev
  confidence : ℚ
  hotspots : List Hotspot
  trendsAi : Option AiTrends
  trendsStatistical : TrendResult
  deriving DecidableEq, Repr

/-- The all-default payload of `_fallback_prediction`'s `except` handler. -/
def defaultPayload : PredictionResult :=
  ⟨Sev.low, 3 / 10, [], none, ⟨Trend.stable, 0, Sev.low⟩⟩

/-- `_fallback_prediction` (`predictive_analytics.py` lines 69-97):
statistical-only result with confidence 0.6, or the all-default payload
with confidence 0.3 when the statistical pipeline itself raises (the only
raising step on this path is `_process_historical_data`). -/
def fallbackPrediction (loc : ℚ × ℚ) (reports : List RawReport) : PredictionResult :=
  match processHistoricalData reports loc with
  | none => defaultPayload
  | some rpts =>
    let trends := analyzeTrends (reportTimes rpts)
    ⟨trends.prediction, 3 / 5, identifyHotspots (reportCoords rpts), none, trends⟩

/-- `predict_pothole_conditions` (`predictive_analytics.py` lines 32-67).
Parameters at the external boundaries: `enabled` is `is_enabled()`;
`timeRangeOk` records whether `pd.Timedelta(time_range)` parses (prompt
generation raises otherwise, and also on an empty frame, whose
`df['created_at']` lookup fails); `aiResp` is the text of
`model.generate_content` (`none` = the call raised).  Every raise inside
the `try` lands in `_fallback_prediction`. -/
def predictPotholeConditions (enabled timeRangeOk : Bool) (aiResp : Option String)
    (loc : ℚ × ℚ) (reports : List RawReport) : PredictionResult :=
  if !enabled then fallbackPrediction loc reports
  else
    match processHistoricalData reports loc with
    | none => fallbackPrediction loc reports
    | some rpts =>
      let hotspots := identifyHotspots (reportCoords rpts)
      if rpts.isEmpty || !timeRangeOk then fallbackPrediction loc reports
      else
        match aiResp with
        | none => fallbackPrediction loc reports
        | some text =>
          let ai := parseAiResponse text
          ⟨ai.severity, ai.confidence, hotspots, some ai.trends,
            analyzeTrends (reportTimes rpts)⟩

/-! ## JSON-block mode (`generate_trend_forecast`)

`json.loads` is an external library call and enters as an oracle
`parseJson : String → Option JVal`; `none` is a `JSONDecodeError`.  A
successful parse whose top level is not an object makes the subsequent
`.update(...)` raise `AttributeError`, which the outer handler converts
to the mock fallback — the same end state as a parse failure. -/

/-- JSON values. -/
inductive JVal where
  | null
  | bool (b : Bool)
  | num (q : ℚ)
  | str (s : String)
  | arr (elts : List JVal)
  | obj (fields : List (String × JVal))

/-- A JSON object, as the ordered association list `json.loads` yields
(objects produced by `json.loads` have unique keys). -/
abbrev JObj := List (String × JVal)

/-- Whether the object carries key `k`. -/
def containsKey (d : JObj) (k : String) : Bool := d.any (fun p => p.1 == k)

/-- Set one key, Python-dict style: an existing key keeps its position,
a new key is appended. -/
def setKey (d : JObj) (k : String) (v : JVal) : JObj :=
  if containsKey d k then d.map (fun p => if p.1 == k then (k, v) else p)
  else d ++ [(k, v)]

/-- `dict.update` with the given key/value pairs. -/
def dictUpdate (d : JObj) (kvs : List (String × JVal)) : JObj :=
  kvs.foldl (fun acc p => setKey acc p.1 p.2) d

/-- The metadata merged into a successful forecast parse
(`trend_data.update({...})`, lines 407-412). -/
def metaKvs (genAt areaName : String) (nReports : ℕ) : List (String × JVal) :=
  [("generated_at", JVal.str genAt),
   ("area_name", JVal.str areaName),
   ("data_points", JVal.num nReports),
   ("model", JVal.str "gemini-1.5-flash")]

/-- `_generate_mock_trends` (`predictive_analytics.py` lines 504-532). -/
def mockTrends (nReports : ℕ) (areaName genAt : String) : JObj :=
  [("forecast_period", JVal.str "Next 6 months"),
   ("predicted_reports", JVal.obj
     [("month1", JVal.num 12), ("month2", JVal.num 15), ("month3", JVal.num 18),
      ("month4", JVal.num 14), ("month5", JVal.num 16), ("month6", JVal.num 13)]),
   ("trend_direction", JVal.str "stable"),
   ("peak_periods", JVal.arr [JVal.str "monsoon", JVal.str "post-winter"]),
   ("issue_type_trends", JVal.obj
     [("potholes", JVal.str "stable"), ("drainage", JVal.str "increasing"),
      ("street_lamps", JVal.str "stable")]),
   ("recommendations", JVal.arr
     [JVal.str "Monitor during peak seasons", JVal.str "Focus on preventive maintenance"]),
   ("confidence_level", JVal.num (6 / 10)),
   ("generated_at", JVal.str genAt),
   ("area_name", JVal.str areaName),
   ("data_points", JVal.num nReports),
   ("model", JVal.str "mock-fallback")]

/-- `response.text.find('{')` as an option (`-1` becomes `none`). -/
def firstBraceIdx (l : List Char) : Option ℕ := l.findIdx? (fun c => c == '{')

/-- `response.text.rfind('}')` as an option. -/
def lastBraceIdx (l : List Char) : Option ℕ :=
  (l.reverse.findIdx? (fun c => c == '}')).map (fun i => l.length - 1 - i)

/-- Python's `text[i:j]` for `0 ≤ i, j`. -/
def pySlice (l : List Char) (i j : ℕ) : List Char := (l.take j).drop i

/-- `generate_trend_forecast` (`predictive_analytics.py` lines 355-425).
`aiResp = none` models a raising `generate_content` call; an empty
response text is falsy and also falls back.  Note `json_end =
rfind('}') + 1` is `0`, never `-1`, when `'}'` is absent, so the source's
`json_end != -1` guard is vacuous and a text with `'{'` but no `'}'`
parses the empty slice (which `json.loads` rejects). -/
def generateTrendForecast (parseJson : String → Option JVal) (enabled : Bool)
    (reports : List RawReport) (areaName : String) (aiResp : Option String)
    (genAt : String) : JObj :=
  if !enabled then mockTrends reports.length areaName genAt
  else
    match aiResp with
    | none => mockTrends reports.length areaName genAt
    | some text =>
      if text = "" then mockTrends reports.length areaName genAt
      else
        match firstBraceIdx text.data with
        | none => mockTrends reports.length areaName genAt
        | some i =>
          let j := ((lastBraceIdx text.data).map (· + 1)).getD 0
          let jsonStr := String.mk (pySlice text.data i j)
          match parseJson jsonStr with
          | some (JVal.obj fields) => dictUpdate fields (metaKvs genAt areaName reports.length)
          | some _ => mockTrends reports.length areaName genAt
          | none => mockTrends reports.length areaName genAt

/-! ## SMS service (`sms_service.py`)

The alert ledger `self.sent_alerts` is a `defaultdict(list)` from a
quantized location key to send timestamps; it is modelled as a total
function with default `[]`.  Timestamps are seconds (`Int`); the HTTP
gateway enters as an explicit `SmsTransport` outcome.  The source reads
`datetime.now()` twice in a successful send (once in the rate check, once
at the append); the claims do not probe the sub-call clock drift and the
embedding uses one `now` per call. -/

/-- Rate-limit key: `f"{round(lat, 3)}_{round(lng, 3)}"`, modelled as the
pair of 3-decimal roundings scaled to integers.  (Python `round` ties to
even; `round` on `ℚ` ties up; none of the claims sit on an exact
half-thousandth tie.) -/
def locKey (lat lng : ℚ) : ℤ × ℤ := (round (lat * 1000), round (lng * 1000))

/-- The `location_data` dictionary: `.get('lat', 0)` / `.get('lng', 0)`. -/
structure LocationData where
  lat : Option ℚ
  lng : Option ℚ
  address : Option String

/-- Key of a location dictionary, with the source's 0 defaults. -/
def keyOf (loc : LocationData) : ℤ × ℤ := locKey (loc.lat.getD 0) (loc.lng.getD 0)

/-- `self.sent_alerts`. -/
abbrev Ledger := (ℤ × ℤ) → List Int

/-- The fresh ledger of `__init__`. -/
def emptyLedger : Ledger := fun _ => []

/-- Point update of the ledger. -/
def updateLedger (led : Ledger) (k : ℤ × ℤ) (v : List Int) : Ledger :=
  fun k' => if k' = k then v else led k'

/-- 24 hours in seconds. -/
def oneDay : Int := 86400

/-- `[t for t in entry if t > now - timedelta(days=1)]`. -/
def pruneYoung (l : List Int) (now : Int) : List Int :=
  l.filter (fun ts => decide (now - oneDay < ts))

/-- `self.max_alerts_per_day`. -/
def maxAlertsPerDay : ℕ := 1

/-- `_can_send_alert` (`sms_service.py` lines 29-41): prune the entry to
the trailing 24 hours (a write-back), then allow iff the pruned count is
below the daily limit. -/
def canSendAlert (led : Ledger) (k : ℤ × ℤ) (now : Int) : Ledger × Bool :=
  let pruned := pruneYoung (led k) now
  (updateLedger led k pruned, decide (pruned.length < maxAlertsPerDay))

/-- `str.replace('+91', '')`: drop the non-overlapping occurrences of
`"+91"`, scanning left to right. -/
def stripPlus91 : List Char → List Char
  | '+' :: '9' :: '1' :: rest => stripPlus91 rest
  | c :: rest => c :: stripPlus91 rest
  | [] => []

/-- The cleaned form of one phone number:
`str(number).replace('+91', '').replace(' ', '').replace('-', '')`. -/
def cleanChars (s : String) : List Char :=
  ((stripPlus91 s.data).filter (fun ch => ch != ' ')).filter (fun ch => ch != '-')

/-- Phone normalization: drop every `"+91"`, space and dash; valid iff
exactly 10 digits remain (`isdigit` modelled over ASCII digits). -/
def cleanNumber (s : String) : Option String :=
  let c := cleanChars s
  if c.length = 10 ∧ c.all Char.isDigit then some (String.mk c) else none

/-- Outcome of the `requests.post` gateway call. -/
inductive SmsTransport where
  | response (status : Int) (ret : Bool) (msg : String)
  | timeout (e : String)
  | requestError (e : String)
  | otherError (e : String)
  deriving DecidableEq, Repr

/-- Result of one alert call: new ledger, the `(bool, str)` pair, and a
ghost flag recording whether the HTTP call was made at all. -/
structure SendResult where
  led : Ledger
  ok : Bool
  msg : String
  gatewayCalled : Bool

/-- `send_high_priority_alert` (`sms_service.py` lines 43-116). -/
def sendHighPriorityAlert (led : Ledger) (enabled : Bool) (numbers : List String)
    (loc : LocationData) (_reportCount : ℕ) (tr : SmsTransport) (now : Int) :
    SendResult :=
  if !enabled then ⟨led, false, "SMS service not configured", false⟩
  else if numbers.isEmpty then ⟨led, false, "No phone numbers provided", false⟩
  else
    let k := keyOf loc
    let c := canSendAlert led k now
    let led₁ := c.1
    if !c.2 then ⟨led₁, false, "Daily alert limit reached for this location", false⟩
    else
      let clean := numbers.filterMap cleanNumber
      if clean.isEmpty then ⟨led₁, false, "No valid phone numbers found", false⟩
      else
        match tr with
        | SmsTransport.response s ret m =>
          if s = 200 then
            if ret then
              ⟨updateLedger led₁ k (led₁ k ++ [now]), true,
                "Alert sent to " ++ toString clean.length ++ " recipients", true⟩
            else ⟨led₁, false, "SMS API error: " ++ m, true⟩
          else ⟨led₁, false, "SMS service error: " ++ toString s, true⟩
        | SmsTransport.timeout _ => ⟨led₁, false, "SMS request timeout", true⟩
        | SmsTransport.requestError e => ⟨led₁, false, "SMS request failed: " ++ e, true⟩
        | SmsTransport.otherError e => ⟨led₁, false, "Unexpected error: " ++ e, true⟩

/-- `send_test_sms` (`sms_service.py` lines 118-152).  The body never
references `self.sent_alerts`; the ledger passes through untouched.  Its
single generic `except` renders every transport failure as
`"Error: " ++ str(e)`. -/
def sendTestSms (led : Ledger) (enabled : Bool) (phone _testMessage : String)
    (tr : SmsTransport) : Ledger × Bool × String :=
  (led,
    if !enabled then (false, "SMS service not configured")
    else
      let c := cleanChars phone
      if ¬(c.length = 10 ∧ c.all Char.isDigit) then
        (false, "Invalid phone number format")
      else
        match tr with
        | SmsTransport.response s ret m =>
          if s = 200 then
            if ret then (true, "Test SMS sent successfully") else (false, m)
          else (false, "HTTP error: " ++ toString s)
        | SmsTransport.timeout e => (false, "Error: " ++ e)
        | SmsTransport.requestError e => (false, "Error: " ++ e)
        | SmsTransport.otherError e => (false, "Error: " ++ e))

/-- One alert-sending request against the shared ledger. -/
structure SmsEvent where
  time : Int
  enabled : Bool
  numbers : List String
  loc : LocationData
  reportCount : ℕ
  transport : SmsTransport

/-- Ledger evolution of one request. -/
def smsStep (led : Ledger) (e : SmsEvent) : Ledger :=
  (sendHighPriorityAlert led e.enabled e.numbers e.loc e.reportCount e.transport e.time).led

/-- Ledger after a sequence of requests. -/
def runTrace (led : Ledger) : List SmsEvent → Ledger
  | [] => led
  | e :: es => runTrace (smsStep led e) es

/-- Request times are nondecreasing along the trace. -/
def monotoneTimes (tr : List SmsEvent) : Prop :=
  List.Chain' (fun a b => a.time ≤ b.time) tr

/-- A sample input for the clusterer: four reports on a 1-meter-spaced
line, all mutually within `eps`. -/
def samplePoints : List (ℚ × ℚ) :=
  [(0, 0), (1 / 100000, 0), (2 / 100000, 0), (3 / 100000, 0)]

/-! ### Invariants of the DBSCAN labelling, used to verify the clusterer -/

/-- The label of point `i` (`none` = noise / not yet labelled). -/
def lab (L : List (Option ℕ)) (i : ℕ) : Option ℕ := L.getD i none

/-- Labels only grow: a labelled point keeps its label. -/
def Mono (L L' : List (Option ℕ)) : Prop :=
  ∀ i c, lab L i = some c → lab L' i = some c

/-- All freshly assigned labels are the current cluster id. -/
def NewOnly (cl : ℕ) (L L' : List (Option ℕ)) : Prop :=
  ∀ i c, lab L' i = some c → lab L i = some c ∨ c = cl

/-- Provenance: every labelled point is within `eps` of a core point
carrying the same label (a core point witnesses itself). -/
def Prov (pts : List (ℚ × ℚ)) (L : List (Option ℕ)) : Prop :=
  ∀ i c, lab L i = some c →
    ∃ k, isCore pts k ∧ lab L k = some c ∧ i ∈ nbrs pts k

/-- Closure up to the pending work list: every neighbour of a labelled
core point is labelled or still waiting on the stack. -/
def ClosedUpTo (pts : List (ℚ × ℚ)) (L : List (Option ℕ)) (stack : List ℕ) : Prop :=
  ∀ j, isCore pts j → lab L j ≠ none → ∀ m ∈ nbrs pts j, lab L m ≠ none ∨ m ∈ stack

/-- Adjacent labelled core points carry the same label. -/
def Coher (pts : List (ℚ × ℚ)) (L : List (Option ℕ)) : Prop :=
  ∀ j k c d, isCore pts j → isCore pts k → lab L j = some c → lab L k = some d →
    j ∈ nbrs pts k → c = d

/-- Every index on the work list was reached from a core point already
carrying the current label, or is the seed itself. -/
def StackOk (pts : List (ℚ × ℚ)) (cl p : ℕ) (L : List (Option ℕ))
    (stack : List ℕ) : Prop :=
  ∀ i ∈ stack, (∃ k, isCore pts k ∧ lab L k = some cl ∧ i ∈ nbrs pts k) ∨ i = p

/-! ## Theorems -/

/-- C3: the severity heuristic agrees everywhere with the specification's
three-rule precedence (rule 1: `frequency > 5` or
(`increasing` and `frequency > 3`) ⇒ high; rule 2: otherwise
`frequency > 2` or `increasing` ⇒ medium; rule 3: otherwise low), and the
four literal cases pinned by the spec hold: 6/stable ⇒ high,
4/increasing ⇒ high, 2.5/stable ⇒ medium, 1/stable ⇒ low. -/
theorem severity_heuristic_precedence :
    (∀ (t : Trend) (f : ℚ), predictionOf t f = specSeverity t f) ∧
    predictionOf Trend.stable 6 = Sev.high ∧
    predictionOf Trend.increasing 4 = Sev.high ∧
    predictionOf Trend.stable (5 / 2) = Sev.medium ∧
    predictionOf Trend.stable 1 = Sev.low := by
  refine ⟨fun t f => rfl, ?_, ?_, ?_, ?_⟩ <;> decide

/-- C10: `send_test_sms` is ledger-neutral: it returns the ledger
unchanged, its `(bool, message)` result does not depend on the ledger at
all (so a test send can never be denied by, nor count against, the
per-location daily limit), and any subsequent high-priority alert behaves
exactly as if the test send had never happened. -/
theorem sendTestSms_ledger_frame :
    ∀ (led led' : Ledger) (enabled : Bool) (phone msg : String) (tr : SmsTransport),
      (sendTestSms led enabled phone msg tr).1 = led ∧
      (sendTestSms led enabled phone msg tr).2 = (sendTestSms led' enabled phone msg tr).2 ∧
      ∀ (numbers : List String) (loc : LocationData) (cnt : ℕ)
        (tr' : SmsTransport) (now : Int),
        sendHighPriorityAlert (sendTestSms led enabled phone msg tr).1 enabled
            numbers loc cnt tr' now =
          sendHighPriorityAlert led enabled numbers loc cnt tr' now :=
  fun _ _ _ _ _ _ => ⟨rfl, rfl, fun _ _ _ _ _ => rfl⟩

theorem foldl_min_le_init (l : List ℕ) : ∀ a : ℕ, l.foldl min a ≤ a := by
  induction l with
  | nil => intro a; exact le_rfl
  | cons b t ih => intro a; exact le_trans (ih (min a b)) (min_le_left _ _)

theorem foldl_min_le_mem (l : List ℕ) : ∀ (a x : ℕ), x ∈ l → l.foldl min a ≤ x := by
  induction l with
  | nil => intro a x hx; cases hx
  | cons b t ih =>
    intro a x hx
    rcases List.mem_cons.mp hx with rfl | hx
    · exact le_trans (foldl_min_le_init t _) (min_le_right _ _)
    · exact ih _ _ hx

theorem foldl_min_eq_init_or_mem (l : List ℕ) :
    ∀ a : ℕ, l.foldl min a = a ∨ l.foldl min a ∈ l := by
  induction l with
  | nil => intro a; exact Or.inl rfl
  | cons b t ih =>
    intro a
    rcases ih (min a b) with h | h
    · rcases min_choice a b with h2 | h2
      · exact Or.inl (by rw [List.foldl_cons, h, h2])
      · refine Or.inr ?_
        rw [List.foldl_cons, h, h2]
        exact List.mem_cons_self _ _
    · exact Or.inr (List.mem_cons_of_mem _ h)

theorem foldl_max_init_le (l : List ℕ) : ∀ a : ℕ, a ≤ l.foldl max a := by
  induction l with
  | nil => intro a; exact le_rfl
  | cons b t ih => intro a; exact le_trans (le_max_left _ _) (ih (max a b))

theorem foldl_max_eq_init_or_mem (l : List ℕ) :
    ∀ a : ℕ, l.foldl max a = a ∨ l.foldl max a ∈ l := by
  induction l with
  | nil => intro a; exact Or.inl rfl
  | cons b t ih =>
    intro a
    rcases ih (max a b) with h | h
    · rcases max_choice a b with h2 | h2
      · exact Or.inl (by rw [List.foldl_cons, h, h2])
      · refine Or.inr ?_
        rw [List.foldl_cons, h, h2]
        exact List.mem_cons_self _ _
    · exact Or.inr (List.mem_cons_of_mem _ h)

theorem getD_map_range (f : ℕ → ℕ) (n i : ℕ) (h : i < n) :
    ((List.range n).map f).getD i 0 = f i := by
  rw [List.getD_eq_getElem?_getD, List.getElem?_map, List.getElem?_range h]
  rfl

theorem two_le_countP (p : ℕ → Bool) :
    ∀ (l : List ℕ) (i j : ℕ), i < j → j < l.length →
      p (l.getD i 0) = true → p (l.getD j 0) = true → 2 ≤ l.countP p := by
  intro l
  induction l with
  | nil => intro i j _ hj _ _; exact absurd hj (by simp)
  | cons a t ih =>
    intro i j hij hj hpi hpj
    cases i with
    | zero =>
      obtain ⟨j', rfl⟩ : ∃ j', j = j' + 1 := ⟨j - 1, by omega⟩
      have hj' : j' < t.length := by simpa using hj
      have hmem : t.getD j' 0 ∈ t := by
        rw [List.getD_eq_getElem?_getD, List.getElem?_eq_getElem hj']
        exact List.getElem_mem hj'
      have hpa : p a = true := hpi
      have h1 : 0 < t.countP p := List.countP_pos_iff.mpr ⟨_, hmem, hpj⟩
      rw [List.countP_cons]
      simp only [hpa, if_pos]
      omega
    | succ i' =>
      obtain ⟨j', rfl⟩ : ∃ j', j = j' + 1 := ⟨j - 1, by omega⟩
      have h2 := ih i' j' (by omega) (by simpa using hj) hpi hpj
      rw [List.countP_cons]
      split <;> omega

/-- The first weekly bucket always holds the earliest report, hence is
non-empty. -/
theorem weeklyCounts_first_pos (t : ℕ) (rest : List ℕ) :
    1 ≤ (weeklyCounts (t :: rest)).getD 0 0 := by
  have hlomem :
      ((t :: rest).map (· / 7)).foldl min (t / 7) ∈ (t :: rest).map (· / 7) := by
    rcases foldl_min_eq_init_or_mem ((t :: rest).map (· / 7)) (t / 7) with h | h
    · rw [h]; exact List.mem_map_of_mem _ (List.mem_cons_self _ _)
    · exact h
  have hlohi :
      ((t :: rest).map (· / 7)).foldl min (t / 7) ≤
        ((t :: rest).map (· / 7)).foldl max (t / 7) :=
    le_trans (foldl_min_le_init _ _) (foldl_max_init_le _ _)
  show ((List.range _).map _).getD 0 0 ≥ 1
  rw [getD_map_range _ _ _ (by omega)]
  rw [Nat.add_zero]
  exact List.count_pos_iff.mpr hlomem

/-- The last weekly bucket always holds the latest report, hence is
non-empty. -/
theorem weeklyCounts_last_pos (t : ℕ) (rest : List ℕ) :
    1 ≤ (weeklyCounts (t :: rest)).getD ((weeklyCounts (t :: rest)).length - 1) 0 := by
  have hhimem :
      ((t :: rest).map (· / 7)).foldl max (t / 7) ∈ (t :: rest).map (· / 7) := by
    rcases foldl_max_eq_init_or_mem ((t :: rest).map (· / 7)) (t / 7) with h | h
    · rw [h]; exact List.mem_map_of_mem _ (List.mem_cons_self _ _)
    · exact h
  have hlohi :
      ((t :: rest).map (· / 7)).foldl min (t / 7) ≤
        ((t :: rest).map (· / 7)).foldl max (t / 7) :=
    le_trans (foldl_min_le_init _ _) (foldl_max_init_le _ _)
  show ((List.range _).map _).getD (((List.range _).map _).length - 1) 0 ≥ 1
  rw [List.length_map, List.length_range]
  rw [getD_map_range _ _ _ (by omega)]
  rw [show ((t :: rest).map (· / 7)).foldl min (t / 7) +
        (((t :: rest).map (· / 7)).foldl max (t / 7) + 1 -
          ((t :: rest).map (· / 7)).foldl min (t / 7) - 1) =
      ((t :: rest).map (· / 7)).foldl max (t / 7) by omega]
  exact List.count_pos_iff.mpr hhimem

/-- Fewer than 2 non-empty weekly buckets forces fewer than 2 buckets in
total, because the first and last buckets are always non-empty. -/
theorem weeklyCounts_countP_lt_two (times : List ℕ)
    (h : (weeklyCounts times).countP (fun n => n != 0) < 2) :
    (weeklyCounts times).length < 2 := by
  cases times with
  | nil => simp [weeklyCounts]
  | cons t rest =>
    by_contra hlen
    push_neg at hlen
    have h1 := weeklyCounts_first_pos t rest
    have h2 := weeklyCounts_last_pos t rest
    have hc := two_le_countP (fun n => n != 0) (weeklyCounts (t :: rest)) 0
      ((weeklyCounts (t :: rest)).length - 1) (by omega) (by omega)
      (by simp only [bne_iff_ne, ne_eq]; omega)
      (by simp only [bne_iff_ne, ne_eq]; omega)
    omega

/-- C2: whenever the weekly bucketing has fewer than 2 non-empty buckets,
the trend analyzer returns trend `stable`, prediction `low`, and
frequency equal to the mean of the available buckets (0 when there are
none); moreover the first weekly bucket of any non-empty report subset is
non-empty, so a weekly-count vector `[0, 0, 1]` can never arise and the
spec's `[0, 0, 1]` example is an instance of the `< 2 non-empty buckets`
clause with no attainable counterexample. -/
theorem trend_analyzer_few_buckets :
    ∀ times : List ℕ,
      ((weeklyCounts times).countP (fun n => n != 0) < 2 →
        analyzeTrends times =
          ⟨Trend.stable, meanQ ((weeklyCounts times).map natCastQ),
            Sev.low⟩) ∧
      (times ≠ [] → 1 ≤ (weeklyCounts times).getD 0 0) := by
  intro times
  constructor
  · intro h
    have hlen := weeklyCounts_countP_lt_two times h
    cases times with
    | nil => simp [analyzeTrends, weeklyCounts, meanQ]
    | cons t rest =>
      have hlen2 : ((weeklyCounts (t :: rest)).map natCastQ).length < 2 := by
        rw [List.length_map]
        exact hlen
      simp only [analyzeTrends, if_pos hlen2]
  · intro hne
    cases times with
    | nil => exact absurd rfl hne
    | cons t rest => exact weeklyCounts_first_pos t rest

/-- Witness for C2 at the one-report subset `[3]`: one bucket, counts
`[1]`, result `{stable, 1, low}`; the first bucket is non-empty. -/
theorem trend_analyzer_few_buckets_witness :
    (weeklyCounts [3]).countP (fun n => n != 0) < 2 ∧
    analyzeTrends [3] = ⟨Trend.stable, 1, Sev.low⟩ ∧
    ([3] : List ℕ) ≠ [] ∧ 1 ≤ (weeklyCounts [3]).getD 0 0 := by
  refine ⟨by decide, ?_, by decide, (trend_analyzer_few_buckets [3]).2 (by decide)⟩
  have h := (trend_analyzer_few_buckets [3]).1 (by decide)
  rw [h]
  decide

/-- A batch containing any raising report makes
`_process_historical_data` raise. -/
theorem processHistoricalData_error (reports : List RawReport) (loc : ℚ × ℚ)
    (h : ∃ r ∈ reports, badAt loc r = true) :
    processHistoricalData reports loc = none := by
  induction reports with
  | nil => rcases h with ⟨r, hr, _⟩; cases hr
  | cons r rs ih =>
    rcases h with ⟨r0, hr0, hbad⟩
    rcases List.mem_cons.mp hr0 with rfl | hr0
    · obtain ⟨rloc, rsev, rcre, rtyp, rver, rfix⟩ := r0
      cases rloc with
      | none => rfl
      | some p =>
        simp only [badAt, Bool.and_eq_true] at hbad
        obtain ⟨hin, hmiss⟩ := hbad
        have hin' : inRadius loc p := of_decide_eq_true hin
        cases rsev with
        | none => simp [processHistoricalData, hin']
        | some s =>
          cases rcre with
          | none => simp [processHistoricalData, hin']
          | some t =>
            cases rver with
            | none => simp [processHistoricalData, hin']
            | some v =>
              cases rfix with
              | none => simp [processHistoricalData, hin']
              | some f => simp at hmiss
    · have htail := ih ⟨r0, hr0, hbad⟩
      obtain ⟨rloc, rsev, rcre, rtyp, rver, rfix⟩ := r
      cases rloc with
      | none => rfl
      | some p =>
        by_cases hin : inRadius loc p
        · cases rsev <;> cases rcre <;> cases rver <;> cases rfix <;>
            simp [processHistoricalData, hin, htail]
        · simp [processHistoricalData, hin, htail]

/-- A batch with no raising report is filtered to exactly its well-formed
in-radius rows. -/
theorem processHistoricalData_ok (reports : List RawReport) (loc : ℚ × ℚ)
    (h : ∀ r ∈ reports, badAt loc r = false) :
    processHistoricalData reports loc = some (reports.filterMap (rowOf loc)) := by
  induction reports with
  | nil => rfl
  | cons r rs ih =>
    have hr := h r (List.mem_cons_self _ _)
    have htail := ih (fun x hx => h x (List.mem_cons_of_mem _ hx))
    obtain ⟨rloc, rsev, rcre, rtyp, rver, rfix⟩ := r
    cases rloc with
    | none => simp [badAt] at hr
    | some p =>
      simp only [badAt] at hr
      by_cases hin : inRadius loc p
      · rw [decide_eq_true hin, Bool.true_and] at hr
        cases rsev <;> cases rcre <;> cases rver <;> cases rfix <;> simp at hr <;>
          simp [processHistoricalData, rowOf, List.filterMap_cons, hin, htail]
      · simp [processHistoricalData, rowOf, List.filterMap_cons, hin, htail]

/-- C4 counterexample: a batch of three in-radius reports whose middle
record lacks `severity` makes `_process_historical_data` raise (`none`)
instead of returning the two well-formed rows; the geofilter does not
skip the single bad record. -/
theorem geofilter_single_malformed_counterexample :
    processHistoricalData
        [⟨some (0, 0), some "high", some 0, none, some "verified", some "pending"⟩,
         ⟨some (0, 0), none, some 0, none, some "verified", some "pending"⟩,
         ⟨some (1 / 1000, 0), some "low", some 7, none, some "unverified", some "pending"⟩]
        (0, 0) = none ∧
    [⟨some (0, 0), some "high", some 0, none, some "verified", some "pending"⟩,
     ⟨some (0, 0), none, some 0, none, some "verified", some "pending"⟩,
     ⟨some (1 / 1000, 0), some "low", some 7, none, some "unverified", some "pending"⟩].filterMap
        (rowOf ((0 : ℚ), (0 : ℚ))) =
      [⟨0, 0, "high", 0, "pothole", "verified", "pending"⟩,
       ⟨1 / 1000, 0, "low", 7, "pothole", "unverified", "pending"⟩] := by
  constructor <;> decide

/-- C4 amended: a batch with no raising record is filtered to its
well-formed in-radius rows, but a single raising record (missing
`location`, or in-radius with a missing required field) aborts the whole
batch with an exception; the exception never escapes the prediction entry
points — they catch it and return the all-default 0.3 payload. -/
theorem geofilter_malformed_aborts_batch :
    ∀ (reports : List RawReport) (loc : ℚ × ℚ),
      ((∀ r ∈ reports, badAt loc r = false) →
        processHistoricalData reports loc = some (reports.filterMap (rowOf loc))) ∧
      ((∃ r ∈ reports, badAt loc r = true) →
        processHistoricalData reports loc = none ∧
        fallbackPrediction loc reports = defaultPayload ∧
        ∀ (enabled timeRangeOk : Bool) (aiResp : Option String),
          predictPotholeConditions enabled timeRangeOk aiResp loc reports =
            defaultPayload) := by
  intro reports loc
  refine ⟨processHistoricalData_ok reports loc, ?_⟩
  intro h
  have herr := processHistoricalData_error reports loc h
  have hfb : fallbackPrediction loc reports = defaultPayload := by
    unfold fallbackPrediction
    rw [herr]
  refine ⟨herr, hfb, ?_⟩
  intro enabled timeRangeOk aiResp
  cases enabled with
  | false => exact hfb
  | true => simp [predictPotholeConditions, herr, hfb]

/-- Witness for C4's amended claim at concrete batches: a clean batch is
filtered to its row, and a batch with one locationless record lands in
the all-default payload. -/
theorem geofilter_malformed_aborts_batch_witness :
    processHistoricalData
        [⟨some (0, 0), some "high", some 0, none, some "verified", some "pending"⟩]
        (0, 0) =
      some [⟨0, 0, "high", 0, "pothole", "verified", "pending"⟩] ∧
    fallbackPrediction (0, 0) [⟨none, none, none, none, none, none⟩] =
      defaultPayload := by
  constructor
  · have h := (geofilter_malformed_aborts_batch
      [⟨some (0, 0), some "high", some 0, none, some "verified", some "pending"⟩]
      (0, 0)).1 (by decide)
    rw [h]
    decide
  · exact ((geofilter_malformed_aborts_batch [⟨none, none, none, none, none, none⟩]
      (0, 0)).2 (by decide)).2.1

/-- C1: with AI disabled the blender returns exactly the statistical
fallback; with AI enabled, a raising AI call also lands in the fallback;
the fallback on a batch the geofilter accepts is the pure statistical
result with confidence exactly 0.6 and no `ai` trends entry; and on a
batch whose processing raises it is the all-default payload
`{low, 0.3, [], {stable, 0, low}}`. -/
theorem predict_ai_disabled_fallback :
    ∀ (loc : ℚ × ℚ) (reports : List RawReport) (timeRangeOk : Bool)
      (aiResp : Option String),
      predictPotholeConditions false timeRangeOk aiResp loc reports =
        fallbackPrediction loc reports ∧
      predictPotholeConditions true timeRangeOk none loc reports =
        fallbackPrediction loc reports ∧
      (∀ rpts, processHistoricalData reports loc = some rpts →
        fallbackPrediction loc reports =
          ⟨(analyzeTrends (reportTimes rpts)).prediction, 3 / 5,
            identifyHotspots (reportCoords rpts), none,
            analyzeTrends (reportTimes rpts)⟩) ∧
      (processHistoricalData reports loc = none →
        fallbackPrediction loc reports = defaultPayload) := by
  intro loc reports timeRangeOk aiResp
  refine ⟨rfl, ?_, ?_, ?_⟩
  · unfold predictPotholeConditions
    cases h : processHistoricalData reports loc with
    | none => simp
    | some rpts =>
      simp only [Bool.not_true, Bool.false_eq_true, if_false]
      split <;> rfl
  · intro rpts h
    unfold fallbackPrediction
    rw [h]
  · intro h
    unfold fallbackPrediction
    rw [h]

/-- Witness for C1 at concrete inputs: the empty batch takes the
0.6-confidence statistical branch, and a batch with an in-radius report
missing its `severity` takes the all-default 0.3 branch. -/
theorem predict_ai_disabled_fallback_witness :
    fallbackPrediction (0, 0) [] =
      ⟨Sev.low, 3 / 5, [], none, ⟨Trend.stable, 0, Sev.low⟩⟩ ∧
    fallbackPrediction (0, 0)
        [⟨some (0, 0), none, some 0, none, some "verified", some "pending"⟩] =
      defaultPayload := by
  constructor
  · have h := (predict_ai_disabled_fallback (0, 0) [] true none).2.2.1 [] rfl
    rw [h]; rfl
  · exact (predict_ai_disabled_fallback (0, 0)
      [⟨some (0, 0), none, some 0, none, some "verified", some "pending"⟩]
      true none).2.2.2 (by decide)

/-- C7: in the JSON-block flow with AI enabled and a non-raising,
non-empty response: no `'{'` in the text yields the mock fallback; when
the substring from the first `'{'` to the last `'}'` (empty when `'}'` is
absent or precedes `'{'`) fails to parse, or parses to a non-object, the
flow again yields the mock fallback; and when it parses to an object the
flow returns that object with the generation metadata
(`generated_at`, `area_name`, `data_points`, `model`) merged in. -/
theorem forecast_json_block_flow :
    ∀ (parseJson : String → Option JVal) (reports : List RawReport)
      (areaName genAt text : String),
      (firstBraceIdx text.data = none →
        generateTrendForecast parseJson true reports areaName (some text) genAt =
          mockTrends reports.length areaName genAt) ∧
      (∀ i, firstBraceIdx text.data = some i →
        parseJson (String.mk (pySlice text.data i
            (((lastBraceIdx text.data).map (· + 1)).getD 0))) = none →
        generateTrendForecast parseJson true reports areaName (some text) genAt =
          mockTrends reports.length areaName genAt) ∧
      (∀ i v, firstBraceIdx text.data = some i →
        parseJson (String.mk (pySlice text.data i
            (((lastBraceIdx text.data).map (· + 1)).getD 0))) = some v →
        (∀ fields, v = JVal.obj fields →
          generateTrendForecast parseJson true reports areaName (some text) genAt =
            dictUpdate fields (metaKvs genAt areaName reports.length)) ∧
        (∀ q, v = JVal.num q →
          generateTrendForecast parseJson true reports areaName (some text) genAt =
            mockTrends reports.length areaName genAt)) := by
  intro parseJson reports areaName genAt text
  by_cases htext : text = ""
  · subst htext
    refine ⟨fun _ => rfl, fun i hi _ => ?_, fun i v hi _ => ?_⟩ <;>
      simp [firstBraceIdx] at hi
  · refine ⟨fun h => ?_, fun i hi hp => ?_, fun i v hi hp => ⟨fun fields hv => ?_, fun q hv => ?_⟩⟩
    · simp [generateTrendForecast, htext, h]
    · simp [generateTrendForecast, htext, hi, hp]
    · subst hv
      simp [generateTrendForecast, htext, hi, hp]
    · subst hv
      simp [generateTrendForecast, htext, hi, hp]

/-- Witness for C7 at concrete inputs: a brace-less text falls back to
mock, a failing parse falls back to mock, and a successful object parse
is returned with the metadata merged. -/
theorem forecast_json_block_flow_witness :
    generateTrendForecast (fun _ => none) true [] "A" (some "no json") "T" =
      mockTrends 0 "A" "T" ∧
    generateTrendForecast (fun _ => none) true [] "A"
        (some (String.mk ['{', 'a', '}'])) "T" = mockTrends 0 "A" "T" ∧
    generateTrendForecast (fun _ => some (JVal.obj [("k", JVal.num 1)])) true [] "A"
        (some (String.mk ['{', 'a', '}'])) "T" =
      dictUpdate [("k", JVal.num 1)] (metaKvs "T" "A" 0) := by
  refine ⟨(forecast_json_block_flow (fun _ => none) [] "A" "T" "no json").1 (by decide),
    (forecast_json_block_flow (fun _ => none) [] "A" "T"
      (String.mk ['{', 'a', '}'])).2.1 0 (by decide) rfl,
    ((forecast_json_block_flow (fun _ => some (JVal.obj [("k", JVal.num 1)])) [] "A" "T"
      (String.mk ['{', 'a', '}'])).2.2 0 _ (by decide) rfl).1 _ rfl⟩

/-- C8: the keyword-mode parse is total and its confidence always lies in
`[0, 1]`; when the confidence regex has no match (and the trend split does
not raise) the confidence is exactly 0.7; when the regex captures a valid
decimal (and the trend split does not raise) the confidence is that value
clamped to `[0, 1]`; and every internal parsing exception — a captured
`[0-9.]+` run that is not a valid `float`, or the `IndexError` of the
trend split — produces the default structured result. -/
theorem keyword_confidence_extraction :
    ∀ text : String,
      (0 ≤ (parseAiResponse text).confidence ∧
        (parseAiResponse text).confidence ≤ 1) ∧
      (confScan (asciiLower text).data = none → trendRaises text = false →
        (parseAiResponse text).confidence = 7 / 10) ∧
      (∀ m q, confScan (asciiLower text).data = some m → pyFloatQ m = some q →
        trendRaises text = false →
        (parseAiResponse text).confidence = min 1 (max 0 q)) ∧
      (∀ m, confScan (asciiLower text).data = some m → pyFloatQ m = none →
        parseAiResponse text = defaultParseResult) ∧
      (trendRaises text = true → parseAiResponse text = defaultParseResult) := by
  intro text
  refine ⟨?_, ?_, ?_, ?_, ?_⟩
  · cases hs : confScan (asciiLower text).data with
    | none =>
      cases htr : trendRaises text with
      | false => simp [parseAiResponse, hs, htr]; norm_num
      | true => simp [parseAiResponse, hs, htr, defaultParseResult]; norm_num
    | some m =>
      cases hf : pyFloatQ m with
      | none => simp [parseAiResponse, hs, hf, defaultParseResult]; norm_num
      | some q =>
        cases htr : trendRaises text with
        | false =>
          simp only [parseAiResponse, hs, hf, htr, Bool.false_eq_true, if_false]
          exact ⟨le_min (by norm_num) (le_max_left _ _), min_le_left _ _⟩
        | true =>
          simp [parseAiResponse, hs, hf, htr, defaultParseResult]
          norm_num
  · intro hs htr
    simp [parseAiResponse, hs, htr]
  · intro m q hs hf htr
    simp [parseAiResponse, hs, hf, htr]
  · intro m hs hf
    simp [parseAiResponse, hs, hf]
  · intro htr
    cases hs : confScan (asciiLower text).data with
    | none => simp [parseAiResponse, hs, htr]
    | some m =>
      cases hf : pyFloatQ m with
      | none => simp [parseAiResponse, hs, hf]
      | some q => simp [parseAiResponse, hs, hf, htr]

/-- Witness for C8 at concrete response texts: default 0.7 with no
`confidence` token, clamp of a captured decimal, invalid-float exception
to the default result, and the trend-split `IndexError` to the default
result. -/
theorem keyword_confidence_extraction_witness :
    (parseAiResponse "all good").confidence = 7 / 10 ∧
    (parseAiResponse "confidence: 0.85").confidence = min 1 (max 0 (17 / 20)) ∧
    parseAiResponse "confidence: 1.2.3" = defaultParseResult ∧
    parseAiResponse "Trend up" = defaultParseResult := by
  refine ⟨(keyword_confidence_extraction "all good").2.1 (by decide) (by decide),
    (keyword_confidence_extraction "confidence: 0.85").2.2.1
      ['0', '.', '8', '5'] (17 / 20) (by decide) (by decide) (by decide),
    (keyword_confidence_extraction "confidence: 1.2.3").2.2.2.1
      ['1', '.', '2', '.', '3'] (by decide) (by decide),
    (keyword_confidence_extraction "Trend up").2.2.2.2 (by decide)⟩

/-- Updating a key and reading it back. -/
theorem updateLedger_same (led : Ledger) (k : ℤ × ℤ) (v : List Int) :
    updateLedger led k v k = v := by
  simp [updateLedger]

/-- Two successive updates of the same key collapse to the second. -/
theorem updateLedger_twice (led : Ledger) (k : ℤ × ℤ) (v w : List Int) :
    updateLedger (updateLedger led k v) k w = updateLedger led k w := by
  funext j
  by_cases h : j = k <;> simp [updateLedger, h]

/-- Exhaustive characterization of `send_high_priority_alert` with the
credential configured: empty number list, rate-limited, no valid numbers,
acknowledged success (append after prune), or gateway-side failure
(prune only). -/
theorem sendHigh_spec (led : Ledger) (numbers : List String) (loc : LocationData)
    (cnt : ℕ) (tr : SmsTransport) (now : Int) :
    (numbers.isEmpty = true ∧
      sendHighPriorityAlert led true numbers loc cnt tr now =
        ⟨led, false, "No phone numbers provided", false⟩) ∨
    (¬((pruneYoung (led (keyOf loc)) now).length < maxAlertsPerDay) ∧
      sendHighPriorityAlert led true numbers loc cnt tr now =
        ⟨updateLedger led (keyOf loc) (pruneYoung (led (keyOf loc)) now), false,
          "Daily alert limit reached for this location", false⟩) ∨
    ((pruneYoung (led (keyOf loc)) now).length < maxAlertsPerDay ∧
      (numbers.filterMap cleanNumber).isEmpty = true ∧
      sendHighPriorityAlert led true numbers loc cnt tr now =
        ⟨updateLedger led (keyOf loc) (pruneYoung (led (keyOf loc)) now), false,
          "No valid phone numbers found", false⟩) ∨
    ((pruneYoung (led (keyOf loc)) now).length < maxAlertsPerDay ∧
      (∃ m, tr = SmsTransport.response 200 true m) ∧
      sendHighPriorityAlert led true numbers loc cnt tr now =
        ⟨updateLedger led (keyOf loc) (pruneYoung (led (keyOf loc)) now ++ [now]), true,
          "Alert sent to " ++ toString (numbers.filterMap cleanNumber).length ++
            " recipients", true⟩) ∨
    ((pruneYoung (led (keyOf loc)) now).length < maxAlertsPerDay ∧
      (∀ m, tr ≠ SmsTransport.response 200 true m) ∧
      ∃ msg, sendHighPriorityAlert led true numbers loc cnt tr now =
        ⟨updateLedger led (keyOf loc) (pruneYoung (led (keyOf loc)) now), false,
          msg, true⟩) := by
  by_cases h1 : numbers.isEmpty
  · exact Or.inl ⟨h1, by simp [sendHighPriorityAlert, h1]⟩
  · right
    by_cases h2 : (pruneYoung (led (keyOf loc)) now).length < maxAlertsPerDay
    · right
      by_cases h3 : (numbers.filterMap cleanNumber).isEmpty
      · exact Or.inl ⟨h2, h3,
          by simp [sendHighPriorityAlert, canSendAlert, h1, h2, h3]⟩
      · right
        cases tr with
        | response s ret m =>
          by_cases h4 : s = 200
          · cases ret with
            | true =>
              subst h4
              refine Or.inl ⟨h2, ⟨m, rfl⟩, ?_⟩
              simp [sendHighPriorityAlert, canSendAlert, h1, h2, h3,
                updateLedger_twice, updateLedger_same]
            | false =>
              subst h4
              refine Or.inr ⟨h2, ?_, "SMS API error: " ++ m, ?_⟩
              · intro m' h
                simp at h
              · simp [sendHighPriorityAlert, canSendAlert, h1, h2, h3]
          · refine Or.inr ⟨h2, ?_, "SMS service error: " ++ toString s, ?_⟩
            · intro m' h
              injection h with hs hr hm
              exact h4 hs
            · simp [sendHighPriorityAlert, canSendAlert, h1, h2, h3, h4]
        | timeout e =>
          refine Or.inr ⟨h2, ?_, "SMS request timeout", ?_⟩
          · intro m' h
            cases h
          · simp [sendHighPriorityAlert, canSendAlert, h1, h2, h3]
        | requestError e =>
          refine Or.inr ⟨h2, ?_, "SMS request failed: " ++ e, ?_⟩
          · intro m' h
            cases h
          · simp [sendHighPriorityAlert, canSendAlert, h1, h2, h3]
        | otherError e =>
          refine Or.inr ⟨h2, ?_, "Unexpected error: " ++ e, ?_⟩
          · intro m' h
            cases h
          · simp [sendHighPriorityAlert, canSendAlert, h1, h2, h3]
    · refine Or.inl ⟨h2, ?_⟩
      simp [sendHighPriorityAlert, canSendAlert, h1, h2]

/-- C6 counterexample: starting from a ledger whose entry for the
quantized key holds one stale timestamp (older than 24 hours), a send
whose transport times out returns `(false, "SMS request timeout")` — but
the ledger entry for that key is *not* unchanged: the rate-limit check
already pruned the stale timestamp away before the gateway call. -/
theorem alert_failure_prunes_entry_counterexample :
    (sendHighPriorityAlert (updateLedger emptyLedger (1000, 2000) [0]) true
        ["9876543210"] ⟨some 1, some 2, none⟩ 4 (SmsTransport.timeout "timed out")
        200000).ok = false ∧
    (sendHighPriorityAlert (updateLedger emptyLedger (1000, 2000) [0]) true
        ["9876543210"] ⟨some 1, some 2, none⟩ 4 (SmsTransport.timeout "timed out")
        200000).msg = "SMS request timeout" ∧
    (sendHighPriorityAlert (updateLedger emptyLedger (1000, 2000) [0]) true
        ["9876543210"] ⟨some 1, some 2, none⟩ 4 (SmsTransport.timeout "timed out")
        200000).led (1000, 2000) ≠
      updateLedger emptyLedger (1000, 2000) [0] (1000, 2000) := by
  refine ⟨by decide, by decide, by decide⟩

/-- C6 amended: the timestamp is appended only after a confirmed success
acknowledgment (`status 200` with `return == True`), never speculatively;
on every gateway-side failure the call returns with no timestamp
appended — the entry for the key is either untouched or equals its value
pruned to the trailing 24 hours (the write-back of the rate-limit check) —
other keys are never touched, and the function is total (no exception
reaches the caller). -/
theorem alert_append_only_on_ack :
    ∀ (led : Ledger) (numbers : List String) (loc : LocationData) (cnt : ℕ)
      (tr : SmsTransport) (now : Int),
      ((sendHighPriorityAlert led true numbers loc cnt tr now).ok = true →
        (∃ m, tr = SmsTransport.response 200 true m) ∧
        (sendHighPriorityAlert led true numbers loc cnt tr now).led (keyOf loc) =
          pruneYoung (led (keyOf loc)) now ++ [now]) ∧
      ((sendHighPriorityAlert led true numbers loc cnt tr now).ok = false →
        (sendHighPriorityAlert led true numbers loc cnt tr now).led (keyOf loc) =
            led (keyOf loc) ∨
        (sendHighPriorityAlert led true numbers loc cnt tr now).led (keyOf loc) =
            pruneYoung (led (keyOf loc)) now) ∧
      (∀ k, k ≠ keyOf loc →
        (sendHighPriorityAlert led true numbers loc cnt tr now).led k = led k) := by
  intro led numbers loc cnt tr now
  rcases sendHigh_spec led numbers loc cnt tr now with
    ⟨h, heq⟩ | ⟨h, heq⟩ | ⟨h, h3, heq⟩ | ⟨h, ⟨m, hm⟩, heq⟩ | ⟨h, hm, msg, heq⟩
  · rw [heq]
    exact ⟨fun hok => by simp at hok, fun _ => Or.inl rfl, fun k hk => rfl⟩
  · rw [heq]
    exact ⟨fun hok => by simp at hok, fun _ => Or.inr (updateLedger_same _ _ _),
      fun k hk => by simp [updateLedger, hk]⟩
  · rw [heq]
    exact ⟨fun hok => by simp at hok, fun _ => Or.inr (updateLedger_same _ _ _),
      fun k hk => by simp [updateLedger, hk]⟩
  · rw [heq]
    exact ⟨fun _ => ⟨⟨m, hm⟩, updateLedger_same _ _ _⟩, fun hok => by simp at hok,
      fun k hk => by simp [updateLedger, hk]⟩
  · rw [heq]
    exact ⟨fun hok => by simp at hok, fun _ => Or.inr (updateLedger_same _ _ _),
      fun k hk => by simp [updateLedger, hk]⟩

/-- Witness for C6's amended claim at concrete inputs: an acknowledged
success appends the send time after the prune, and a timed-out send
leaves the entry equal to its pruned value. -/
theorem alert_append_only_on_ack_witness :
    (sendHighPriorityAlert emptyLedger true ["9876543210"] ⟨some 1, some 2, none⟩ 4
        (SmsTransport.response 200 true "ok") 1000).led (1000, 2000) =
      pruneYoung (emptyLedger (1000, 2000)) 1000 ++ [1000] ∧
    ((sendHighPriorityAlert (updateLedger emptyLedger (1000, 2000) [0]) true
        ["9876543210"] ⟨some 1, some 2, none⟩ 4 (SmsTransport.timeout "t")
        200000).led (1000, 2000) =
      updateLedger emptyLedger (1000, 2000) [0] (1000, 2000) ∨
    (sendHighPriorityAlert (updateLedger emptyLedger (1000, 2000) [0]) true
        ["9876543210"] ⟨some 1, some 2, none⟩ 4 (SmsTransport.timeout "t")
        200000).led (1000, 2000) =
      pruneYoung (updateLedger emptyLedger (1000, 2000) [0] (1000, 2000)) 200000) := by
  have hk : keyOf (⟨some 1, some 2, none⟩ : LocationData) = (1000, 2000) := by decide
  constructor
  · have h := (alert_append_only_on_ack emptyLedger ["9876543210"]
      ⟨some 1, some 2, none⟩ 4 (SmsTransport.response 200 true "ok") 1000).1 (by decide)
    rw [← hk]
    exact h.2
  · have h := (alert_append_only_on_ack (updateLedger emptyLedger (1000, 2000) [0])
      ["9876543210"] ⟨some 1, some 2, none⟩ 4 (SmsTransport.timeout "t") 200000).2.1
      (by decide)
    rw [← hk]
    exact h

/-- Advancing the clock can only shrink the set of young timestamps. -/
theorem pruneYoung_length_mono (l : List Int) (t t' : Int) (h : t ≤ t') :
    (pruneYoung l t').length ≤ (pruneYoung l t).length := by
  unfold pruneYoung
  rw [← List.countP_eq_length_filter, ← List.countP_eq_length_filter]
  apply List.countP_mono_left
  intro a _ hpa
  simp only [decide_eq_true_eq] at hpa ⊢
  omega

/-- Pruning is idempotent at a fixed time. -/
theorem pruneYoung_idem (l : List Int) (t : Int) :
    pruneYoung (pruneYoung l t) t = pruneYoung l t := by
  unfold pruneYoung
  rw [List.filter_filter]
  simp

/-- The ledger after one alert call: unchanged, pruned at the key, or
pruned-then-appended at the key — and the append happens only from an
empty pruned entry. -/
theorem sendHigh_led_shape (led : Ledger) (enabled : Bool) (numbers : List String)
    (loc : LocationData) (cnt : ℕ) (tr : SmsTransport) (now : Int) :
    (sendHighPriorityAlert led enabled numbers loc cnt tr now).led = led ∨
    (sendHighPriorityAlert led enabled numbers loc cnt tr now).led =
      updateLedger led (keyOf loc) (pruneYoung (led (keyOf loc)) now) ∨
    ((sendHighPriorityAlert led enabled numbers loc cnt tr now).led =
      updateLedger led (keyOf loc) (pruneYoung (led (keyOf loc)) now ++ [now]) ∧
      pruneYoung (led (keyOf loc)) now = []) := by
  cases enabled with
  | false => exact Or.inl rfl
  | true =>
    rcases sendHigh_spec led numbers loc cnt tr now with
      ⟨_, heq⟩ | ⟨_, heq⟩ | ⟨_, _, heq⟩ | ⟨hlt, _, heq⟩ | ⟨_, _, _, heq⟩
    · exact Or.inl (by rw [heq])
    · exact Or.inr (Or.inl (by rw [heq]))
    · exact Or.inr (Or.inl (by rw [heq]))
    · refine Or.inr (Or.inr ⟨by rw [heq], ?_⟩)
      have h0 : (pruneYoung (led (keyOf loc)) now).length = 0 := by
        have := hlt
        unfold maxAlertsPerDay at this
        omega
      exact List.length_eq_zero.mp h0
    · exact Or.inr (Or.inl (by rw [heq]))

/-- One step preserves the rate-limiter invariants: all stored timestamps
are in the past, and each key holds at most `max_alerts_per_day`
timestamps younger than 24 hours. -/
theorem smsStep_inv (led : Ledger) (e : SmsEvent) (t₀ : Int)
    (h1 : ∀ k ts, ts ∈ led k → ts ≤ t₀)
    (h2 : ∀ k, (pruneYoung (led k) t₀).length ≤ maxAlertsPerDay)
    (ht : t₀ ≤ e.time) :
    (∀ k ts, ts ∈ smsStep led e k → ts ≤ e.time) ∧
    (∀ k, (pruneYoung (smsStep led e k) e.time).length ≤ maxAlertsPerDay) := by
  have base2 : ∀ k, (pruneYoung (led k) e.time).length ≤ maxAlertsPerDay :=
    fun k => le_trans (pruneYoung_length_mono _ _ _ ht) (h2 k)
  rcases sendHigh_led_shape led e.enabled e.numbers e.loc e.reportCount e.transport
      e.time with hsh | hsh | ⟨hsh, hpr⟩
  · have hstep : smsStep led e = led := hsh
    rw [hstep]
    exact ⟨fun k ts hts => le_trans (h1 k ts hts) ht, base2⟩
  · have hstep : smsStep led e =
        updateLedger led (keyOf e.loc) (pruneYoung (led (keyOf e.loc)) e.time) := hsh
    rw [hstep]
    constructor
    · intro k ts hts
      by_cases hk : k = keyOf e.loc
      · rw [hk, updateLedger_same] at hts
        exact le_trans (h1 _ ts (List.mem_of_mem_filter hts)) ht
      · rw [show updateLedger led (keyOf e.loc) _ k = led k by simp [updateLedger, hk]]
          at hts
        exact le_trans (h1 k ts hts) ht
    · intro k
      by_cases hk : k = keyOf e.loc
      · rw [hk, updateLedger_same, pruneYoung_idem]
        exact base2 _
      · rw [show updateLedger led (keyOf e.loc) _ k = led k by simp [updateLedger, hk]]
        exact base2 k
  · have hstep : smsStep led e =
        updateLedger led (keyOf e.loc)
          (pruneYoung (led (keyOf e.loc)) e.time ++ [e.time]) := hsh
    rw [hstep, hpr]
    constructor
    · intro k ts hts
      by_cases hk : k = keyOf e.loc
      · rw [hk, updateLedger_same] at hts
        simp at hts
        omega
      · rw [show updateLedger led (keyOf e.loc) _ k = led k by simp [updateLedger, hk]]
          at hts
        exact le_trans (h1 k ts hts) ht
    · intro k
      by_cases hk : k = keyOf e.loc
      · rw [hk, updateLedger_same]
        unfold pruneYoung oneDay maxAlertsPerDay
        simp
      · rw [show updateLedger led (keyOf e.loc) _ k = led k by simp [updateLedger, hk]]
        exact base2 k

/-- The invariants hold along any time-monotone trace. -/
theorem runTrace_inv (trace : List SmsEvent) : ∀ (led : Ledger) (t₀ t : Int),
    (∀ k ts, ts ∈ led k → ts ≤ t₀) →
    (∀ k, (pruneYoung (led k) t₀).length ≤ maxAlertsPerDay) →
    List.Pairwise (fun a b => a.time ≤ b.time) trace →
    (∀ ev ∈ trace, t₀ ≤ ev.time) →
    (∀ ev ∈ trace, ev.time ≤ t) → t₀ ≤ t →
    ∀ k, (pruneYoung (runTrace led trace k) t).length ≤ maxAlertsPerDay := by
  induction trace with
  | nil =>
    intro led t₀ t h1 h2 _ _ _ htt k
    exact le_trans (pruneYoung_length_mono _ _ _ htt) (h2 k)
  | cons e es ih =>
    intro led t₀ t h1 h2 hpw hlow hup htt
    have hstep := smsStep_inv led e t₀ h1 h2 (hlow e (List.mem_cons_self _ _))
    have hpw' := List.pairwise_cons.mp hpw
    exact ih (smsStep led e) e.time t hstep.1 hstep.2 hpw'.2 hpw'.1
      (fun ev hev => hup ev (List.mem_cons_of_mem _ hev))
      (hup e (List.mem_cons_self _ _))

/-- C5: with `max_alerts_per_day = 1`: a key with no young timestamp is
allowed to send; immediately after one acknowledged successful send, any
second attempt at the same quantized key within 24 hours is denied with
the daily-limit message and without calling the gateway; strictly more
than 24 hours after that send (all earlier timestamps being in the past)
the key is allowed again; and along any time-monotone request trace from
a fresh ledger, every key holds at most one timestamp younger than 24
hours whenever a check completes. -/
theorem rate_limiter_daily_limit :
    (∀ (led : Ledger) (k : ℤ × ℤ) (now : Int),
      pruneYoung (led k) now = [] → (canSendAlert led k now).2 = true) ∧
    (∀ (led : Ledger) (numbers : List String) (loc : LocationData) (cnt : ℕ)
        (tr : SmsTransport) (now : Int),
      (sendHighPriorityAlert led true numbers loc cnt tr now).ok = true →
      ∀ (numbers' : List String) (loc' : LocationData) (cnt' : ℕ)
          (tr' : SmsTransport) (now' : Int),
        numbers'.isEmpty = false → keyOf loc' = keyOf loc →
        now ≤ now' → now' < now + oneDay →
        (sendHighPriorityAlert
            (sendHighPriorityAlert led true numbers loc cnt tr now).led
            true numbers' loc' cnt' tr' now').ok = false ∧
        (sendHighPriorityAlert
            (sendHighPriorityAlert led true numbers loc cnt tr now).led
            true numbers' loc' cnt' tr' now').msg =
          "Daily alert limit reached for this location" ∧
        (sendHighPriorityAlert
            (sendHighPriorityAlert led true numbers loc cnt tr now).led
            true numbers' loc' cnt' tr' now').gatewayCalled = false) ∧
    (∀ (led : Ledger) (numbers : List String) (loc : LocationData) (cnt : ℕ)
        (tr : SmsTransport) (now : Int),
      (sendHighPriorityAlert led true numbers loc cnt tr now).ok = true →
      (∀ ts ∈ led (keyOf loc), ts ≤ now) →
      ∀ now' : Int, now + oneDay < now' →
        (canSendAlert (sendHighPriorityAlert led true numbers loc cnt tr now).led
          (keyOf loc) now').2 = true) ∧
    (∀ (trace : List SmsEvent) (t : Int),
      monotoneTimes trace → (∀ ev ∈ trace, ev.time ≤ t) →
      ∀ k, (pruneYoung (runTrace emptyLedger trace k) t).length ≤ maxAlertsPerDay) := by
  have success_led : ∀ (led : Ledger) (numbers : List String) (loc : LocationData)
      (cnt : ℕ) (tr : SmsTransport) (now : Int),
      (sendHighPriorityAlert led true numbers loc cnt tr now).ok = true →
      (sendHighPriorityAlert led true numbers loc cnt tr now).led (keyOf loc) =
        pruneYoung (led (keyOf loc)) now ++ [now] := by
    intro led numbers loc cnt tr now hok
    rcases sendHigh_spec led numbers loc cnt tr now with
      ⟨_, heq⟩ | ⟨_, heq⟩ | ⟨_, _, heq⟩ | ⟨_, _, heq⟩ | ⟨_, _, _, heq⟩
    · rw [heq] at hok; simp at hok
    · rw [heq] at hok; simp at hok
    · rw [heq] at hok; simp at hok
    · rw [heq]; exact updateLedger_same _ _ _
    · rw [heq] at hok; simp at hok
  refine ⟨?_, ?_, ?_, ?_⟩
  · intro led k now h
    simp [canSendAlert, h, maxAlertsPerDay]
  · intro led numbers loc cnt tr now hok numbers' loc' cnt' tr' now' hne hk h1 h2
    have hled := success_led led numbers loc cnt tr now hok
    have hmem : now ∈ pruneYoung
        ((sendHighPriorityAlert led true numbers loc cnt tr now).led (keyOf loc'))
        now' := by
      rw [hk, hled]
      unfold pruneYoung
      rw [List.mem_filter]
      refine ⟨List.mem_append_right _ (List.mem_singleton_self _), ?_⟩
      simp only [decide_eq_true_eq]
      unfold oneDay at h2 ⊢
      omega
    have hfull : ¬(pruneYoung
        ((sendHighPriorityAlert led true numbers loc cnt tr now).led (keyOf loc'))
        now').length < maxAlertsPerDay := by
      have := List.length_pos_of_mem hmem
      unfold maxAlertsPerDay
      omega
    rcases sendHigh_spec ((sendHighPriorityAlert led true numbers loc cnt tr now).led)
        numbers' loc' cnt' tr' now' with
      ⟨he, _⟩ | ⟨_, heq⟩ | ⟨hlt, _, _⟩ | ⟨hlt, _, _⟩ | ⟨hlt, _, _, _⟩
    · rw [hne] at he
      cases he
    · rw [heq]
      exact ⟨rfl, rfl, rfl⟩
    · exact absurd hlt hfull
    · exact absurd hlt hfull
    · exact absurd hlt hfull
  · intro led numbers loc cnt tr now hok hpast now' hgap
    have hled := success_led led numbers loc cnt tr now hok
    have hempty : pruneYoung
        ((sendHighPriorityAlert led true numbers loc cnt tr now).led (keyOf loc))
        now' = [] := by
      rw [hled]
      unfold pruneYoung
      rw [List.filter_eq_nil_iff]
      intro a ha
      simp only [decide_eq_true_eq, not_lt]
      rcases List.mem_append.mp ha with ha | ha
      · have := hpast a (List.mem_of_mem_filter ha)
        unfold oneDay at hgap ⊢
        omega
      · rw [List.mem_singleton.mp ha]
        unfold oneDay at hgap ⊢
        omega
    simp [canSendAlert, hempty, maxAlertsPerDay]
  · intro trace t hmono hup k
    cases trace with
    | nil =>
      simp [runTrace, emptyLedger, pruneYoung, maxAlertsPerDay]
    | cons e es =>
      have hpw : List.Pairwise (fun a b : SmsEvent => a.time ≤ b.time) (e :: es) := by
        haveI : IsTrans SmsEvent (fun a b => a.time ≤ b.time) :=
          ⟨fun a b c hab hbc => le_trans hab hbc⟩
        rw [← List.chain'_iff_pairwise]
        exact hmono
      refine runTrace_inv (e :: es) emptyLedger e.time t ?_ ?_ hpw ?_ hup
        (hup e (List.mem_cons_self _ _)) k
      · intro k' ts hts
        cases hts
      · intro k'
        simp [emptyLedger, pruneYoung, maxAlertsPerDay]
      · intro ev hev
        rcases List.mem_cons.mp hev with rfl | hev
        · exact le_refl _
        · exact (List.pairwise_cons.mp hpw).1 ev hev

/-- Witness for C5 at a concrete scenario: a fresh key is allowed; after
a successful send at time 1000000, a second attempt 100 seconds later at
the same quantized location is denied with the daily-limit message and no
gateway call; at time 1100000 (more than 24 hours later) the key is
allowed again; and after the two-request trace every key holds at most
one young timestamp. -/
theorem rate_limiter_daily_limit_witness :
    (canSendAlert emptyLedger (5, 5) 0).2 = true ∧
    (sendHighPriorityAlert
        (sendHighPriorityAlert emptyLedger true ["9876543210"]
          ⟨some 1, some 2, none⟩ 3 (SmsTransport.response 200 true "ok") 1000000).led
        true ["9876543210"] ⟨some 1, some 2, none⟩ 3
        (SmsTransport.response 200 true "ok") 1000100).ok = false ∧
    (sendHighPriorityAlert
        (sendHighPriorityAlert emptyLedger true ["9876543210"]
          ⟨some 1, some 2, none⟩ 3 (SmsTransport.response 200 true "ok") 1000000).led
        true ["9876543210"] ⟨some 1, some 2, none⟩ 3
        (SmsTransport.response 200 true "ok") 1000100).msg =
      "Daily alert limit reached for this location" ∧
    (sendHighPriorityAlert
        (sendHighPriorityAlert emptyLedger true ["9876543210"]
          ⟨some 1, some 2, none⟩ 3 (SmsTransport.response 200 true "ok") 1000000).led
        true ["9876543210"] ⟨some 1, some 2, none⟩ 3
        (SmsTransport.response 200 true "ok") 1000100).gatewayCalled = false ∧
    (canSendAlert
        (sendHighPriorityAlert emptyLedger true ["9876543210"]
          ⟨some 1, some 2, none⟩ 3 (SmsTransport.response 200 true "ok") 1000000).led
        (keyOf ⟨some 1, some 2, none⟩) 1100000).2 = true ∧
    ∀ k, (pruneYoung (runTrace emptyLedger
        [⟨1000000, true, ["9876543210"], ⟨some 1, some 2, none⟩, 3,
          SmsTransport.response 200 true "ok"⟩,
         ⟨1000100, true, ["9876543210"], ⟨some 1, some 2, none⟩, 3,
          SmsTransport.response 200 true "ok"⟩] k) 1000100).length ≤
      maxAlertsPerDay := by
  have hb := rate_limiter_daily_limit.2.1 emptyLedger ["9876543210"]
    ⟨some 1, some 2, none⟩ 3 (SmsTransport.response 200 true "ok") 1000000
    (by decide) ["9876543210"] ⟨some 1, some 2, none⟩ 3
    (SmsTransport.response 200 true "ok") 1000100 (by decide) rfl (by decide) (by decide)
  refine ⟨rate_limiter_daily_limit.1 emptyLedger (5, 5) 0 rfl,
    hb.1, hb.2.1, hb.2.2, ?_, ?_⟩
  · exact rate_limiter_daily_limit.2.2.1 emptyLedger ["9876543210"]
      ⟨some 1, some 2, none⟩ 3 (SmsTransport.response 200 true "ok") 1000000
      (by decide) (by intro ts hts; cases hts) 1100000 (by decide)
  · exact rate_limiter_daily_limit.2.2.2
      [⟨1000000, true, ["9876543210"], ⟨some 1, some 2, none⟩, 3,
        SmsTransport.response 200 true "ok"⟩,
       ⟨1000100, true, ["9876543210"], ⟨some 1, some 2, none⟩, 3,
        SmsTransport.response 200 true "ok"⟩] 1000100
      (by unfold monotoneTimes; simp) (by intro ev hev; fin_cases hev <;> decide)

theorem mem_nbrs_lt (pts : List (ℚ × ℚ)) (i j : ℕ) (h : j ∈ nbrs pts i) :
    j < pts.length := by
  unfold nbrs at h
  exact List.mem_range.mp (List.mem_of_mem_filter h)

theorem mem_nbrs_iff (pts : List (ℚ × ℚ)) (i j : ℕ) :
    j ∈ nbrs pts i ↔
      j < pts.length ∧ dist2 (pts.getD i (0, 0)) (pts.getD j (0, 0)) ≤ eps2 := by
  unfold nbrs
  rw [List.mem_filter, List.mem_range, decide_eq_true_eq]

theorem dist2_symm (p q : ℚ × ℚ) : dist2 p q = dist2 q p := by
  unfold dist2
  ring

theorem mem_nbrs_self (pts : List (ℚ × ℚ)) (i : ℕ) (h : i < pts.length) :
    i ∈ nbrs pts i := by
  rw [mem_nbrs_iff]
  refine ⟨h, ?_⟩
  unfold dist2 eps2
  norm_num

theorem nbrs_symm (pts : List (ℚ × ℚ)) (i j : ℕ) (hi : i < pts.length)
    (h : j ∈ nbrs pts i) : i ∈ nbrs pts j := by
  rw [mem_nbrs_iff] at h ⊢
  exact ⟨hi, by rw [dist2_symm]; exact h.2⟩

theorem nbrs_nodup (pts : List (ℚ × ℚ)) (i : ℕ) : (nbrs pts i).Nodup :=
  (List.nodup_range _).filter _

theorem lab_set_self (L : List (Option ℕ)) (i : ℕ) (v : Option ℕ)
    (h : i < L.length) : lab (L.set i v) i = v := by
  unfold lab
  rw [List.getD_eq_getElem?_getD, List.getElem?_set_self (by simpa using h)]
  rfl

theorem lab_set_ne (L : List (Option ℕ)) (i j : ℕ) (v : Option ℕ)
    (h : j ≠ i) : lab (L.set i v) j = lab L j := by
  unfold lab
  rw [List.getD_eq_getElem?_getD, List.getD_eq_getElem?_getD,
    List.getElem?_set_ne (by omega)]

theorem countP_isNone_set (L : List (Option ℕ)) :
    ∀ (i : ℕ) (c : ℕ), i < L.length → lab L i = none →
      (L.set i (some c)).countP (fun o => o.isNone) + 1 =
        L.countP (fun o => o.isNone) := by
  induction L with
  | nil => intro i c hi _; simp at hi
  | cons a t ih =>
    intro i c hi hnone
    cases i with
    | zero =>
      have ha : a = none := hnone
      subst ha
      simp [List.countP_cons]
    | succ i' =>
      have h' := ih i' c (by simpa using hi) hnone
      show (a :: t.set i' (some c)).countP (fun o => o.isNone) + 1 =
        (a :: t).countP (fun o => o.isNone)
      simp only [List.countP_cons]
      omega

theorem countP_isNone_pos (L : List (Option ℕ)) (i : ℕ) (hi : i < L.length)
    (hnone : lab L i = none) : 0 < L.countP (fun o => o.isNone) := by
  apply List.countP_pos_iff.mpr
  refine ⟨none, ?_, rfl⟩
  have : L.getD i none = none := hnone
  rw [List.getD_eq_getElem?_getD, List.getElem?_eq_getElem hi] at this
  simp only [Option.getD_some] at this
  rw [← this]
  exact List.getElem_mem hi

/-- Main work-list lemma: with enough fuel, one cluster expansion labels
monotonically, assigns only the current cluster id, preserves provenance,
and terminates with full closure (every neighbour of a labelled core
point labelled). -/
theorem expand_spec (pts : List (ℚ × ℚ)) (cl p : ℕ) (hp : isCore pts p)
    (hpn : p < pts.length) :
    ∀ (fuel : ℕ) (L : List (Option ℕ)) (stack : List ℕ),
      L.length = pts.length →
      (∀ i ∈ stack, i < pts.length) →
      stack.length + (pts.length + 1) * L.countP (fun o => o.isNone) ≤ fuel →
      StackOk pts cl p L stack →
      ClosedUpTo pts L stack →
      Prov pts L →
      Mono L (expand pts cl fuel L stack) ∧
      NewOnly cl L (expand pts cl fuel L stack) ∧
      Prov pts (expand pts cl fuel L stack) ∧
      ClosedUpTo pts (expand pts cl fuel L stack) [] ∧
      (expand pts cl fuel L stack).length = L.length := by
  intro fuel
  induction fuel with
  | zero =>
    intro L stack hlen hstk hfuel hso hclos hprov
    have hstack : stack = [] := List.length_eq_zero.mp (by omega)
    subst hstack
    exact ⟨fun i c h => h, fun i c h => Or.inl h, hprov, hclos, rfl⟩
  | succ fuel ih =>
    intro L stack hlen hstk hfuel hso hclos hprov
    cases stack with
    | nil => exact ⟨fun i c h => h, fun i c h => Or.inl h, hprov, hclos, rfl⟩
    | cons i rest =>
      have hin : i < pts.length := hstk i (List.mem_cons_self _ _)
      have hiL : i < L.length := by rw [hlen]; exact hin
      by_cases hlab : lab L i = none
      · -- point `i` is unlabelled: label it with `cl`
        have hlen₁ : (L.set i (some cl)).length = pts.length := by
          rw [List.length_set]; exact hlen
        have hlabL₁ : lab (L.set i (some cl)) i = some cl :=
          lab_set_self L i (some cl) hiL
        have hlab_ne : ∀ j, j ≠ i → lab (L.set i (some cl)) j = lab L j :=
          fun j hj => lab_set_ne L i j _ hj
        have hmono1 : Mono L (L.set i (some cl)) := by
          intro j c h
          by_cases hji : j = i
          · subst hji
            rw [hlab] at h
            cases h
          · rw [hlab_ne j hji]
            exact h
        have hprov₁ : Prov pts (L.set i (some cl)) := by
          intro j c h
          by_cases hji : j = i
          · subst hji
            have hc : c = cl := by
              rw [hlabL₁] at h
              exact (Option.some.inj h).symm
            rw [hc]
            rcases hso j (List.mem_cons_self _ _) with ⟨k, hk, hkl, hkn⟩ | hip
            · exact ⟨k, hk, hmono1 k cl hkl, hkn⟩
            · exact ⟨j, by rw [hip]; exact hp, hlabL₁, mem_nbrs_self pts j hin⟩
          · rw [hlab_ne j hji] at h
            obtain ⟨k, hk, hkl, hkn⟩ := hprov j c h
            exact ⟨k, hk, hmono1 k c hkl, hkn⟩
        have hcount := countP_isNone_set L i cl hiL hlab
        have hnewonly1 : ∀ (L' : List (Option ℕ)),
            NewOnly cl (L.set i (some cl)) L' → NewOnly cl L L' := by
          intro L' hn j c h
          rcases hn j c h with h | h
          · by_cases hji : j = i
            · subst hji
              rw [hlabL₁] at h
              exact Or.inr (Option.some.inj h).symm
            · rw [hlab_ne j hji] at h
              exact Or.inl h
          · exact Or.inr h
        by_cases hcore : isCore pts i
        · -- core point: push the whole neighbourhood
          have heq : expand pts cl (fuel + 1) L (i :: rest) =
              expand pts cl fuel (L.set i (some cl)) (nbrs pts i ++ rest) := by
            simp only [expand]
            rw [if_pos (show L.getD i none = none from hlab), if_pos hcore]
          have hstk' : ∀ j ∈ nbrs pts i ++ rest, j < pts.length := by
            intro j hj
            rcases List.mem_append.mp hj with h | h
            · exact mem_nbrs_lt pts i j h
            · exact hstk j (List.mem_cons_of_mem _ h)
          have hfuel' : (nbrs pts i ++ rest).length +
              (pts.length + 1) * (L.set i (some cl)).countP (fun o => o.isNone) ≤
              fuel := by
            have hnb : (nbrs pts i).length ≤ pts.length := by
              have := List.length_filter_le
                (fun j => decide (dist2 (pts.getD i (0, 0)) (pts.getD j (0, 0)) ≤ eps2))
                (List.range pts.length)
              rw [List.length_range] at this
              exact this
            have hmul : (pts.length + 1) * L.countP (fun o => o.isNone) =
                (pts.length + 1) * (L.set i (some cl)).countP (fun o => o.isNone) +
                  (pts.length + 1) := by
              rw [← hcount, Nat.mul_add, Nat.mul_one]
            rw [List.length_append]
            rw [List.length_cons] at hfuel
            rw [hmul] at hfuel
            set A := (pts.length + 1) * (L.set i (some cl)).countP (fun o => o.isNone)
            omega
          have hso' : StackOk pts cl p (L.set i (some cl)) (nbrs pts i ++ rest) := by
            intro j hj
            rcases List.mem_append.mp hj with h | h
            · exact Or.inl ⟨i, hcore, hlabL₁, h⟩
            · rcases hso j (List.mem_cons_of_mem _ h) with ⟨k, hk, hkl, hkn⟩ | hp'
              · exact Or.inl ⟨k, hk, hmono1 k cl hkl, hkn⟩
              · exact Or.inr hp'
          have hclos' : ClosedUpTo pts (L.set i (some cl)) (nbrs pts i ++ rest) := by
            intro j hj hlj m hm
            by_cases hji : j = i
            · subst hji
              exact Or.inr (List.mem_append.mpr (Or.inl hm))
            · rw [hlab_ne j hji] at hlj
              rcases hclos j hj hlj m hm with h | h
              · by_cases hmi : m = i
                · subst hmi
                  exact Or.inl (by rw [hlabL₁]; simp)
                · exact Or.inl (by rw [hlab_ne m hmi]; exact h)
              · rcases List.mem_cons.mp h with rfl | h
                · exact Or.inl (by rw [hlabL₁]; simp)
                · exact Or.inr (List.mem_append.mpr (Or.inr h))
          rw [heq]
          obtain ⟨m1, n1, p1, c1, l1⟩ :=
            ih (L.set i (some cl)) (nbrs pts i ++ rest) hlen₁ hstk' hfuel' hso'
              hclos' hprov₁
          exact ⟨fun j c h => m1 j c (hmono1 j c h), hnewonly1 _ n1, p1, c1,
            by rw [l1, List.length_set]⟩
        · -- non-core point: label it, push nothing
          have heq : expand pts cl (fuel + 1) L (i :: rest) =
              expand pts cl fuel (L.set i (some cl)) rest := by
            simp only [expand]
            rw [if_pos (show L.getD i none = none from hlab), if_neg hcore]
          have hstk' : ∀ j ∈ rest, j < pts.length :=
            fun j hj => hstk j (List.mem_cons_of_mem _ hj)
          have hfuel' : rest.length +
              (pts.length + 1) * (L.set i (some cl)).countP (fun o => o.isNone) ≤
              fuel := by
            have hmul : (pts.length + 1) * L.countP (fun o => o.isNone) =
                (pts.length + 1) * (L.set i (some cl)).countP (fun o => o.isNone) +
                  (pts.length + 1) := by
              rw [← hcount, Nat.mul_add, Nat.mul_one]
            rw [List.length_cons] at hfuel
            rw [hmul] at hfuel
            set A := (pts.length + 1) * (L.set i (some cl)).countP (fun o => o.isNone)
            omega
          have hso' : StackOk pts cl p (L.set i (some cl)) rest := by
            intro j hj
            rcases hso j (List.mem_cons_of_mem _ hj) with ⟨k, hk, hkl, hkn⟩ | hp'
            · exact Or.inl ⟨k, hk, hmono1 k cl hkl, hkn⟩
            · exact Or.inr hp'
          have hclos' : ClosedUpTo pts (L.set i (some cl)) rest := by
            intro j hj hlj m hm
            have hji : j ≠ i := by
              intro h
              subst h
              exact hcore hj
            rw [hlab_ne j hji] at hlj
            rcases hclos j hj hlj m hm with h | h
            · by_cases hmi : m = i
              · subst hmi
                exact Or.inl (by rw [hlabL₁]; simp)
              · exact Or.inl (by rw [hlab_ne m hmi]; exact h)
            · rcases List.mem_cons.mp h with rfl | h
              · exact Or.inl (by rw [hlabL₁]; simp)
              · exact Or.inr h
          rw [heq]
          obtain ⟨m1, n1, p1, c1, l1⟩ :=
            ih (L.set i (some cl)) rest hlen₁ hstk' hfuel' hso' hclos' hprov₁
          exact ⟨fun j c h => m1 j c (hmono1 j c h), hnewonly1 _ n1, p1, c1,
            by rw [l1, List.length_set]⟩
      · -- point already labelled: just pop it
        have heq : expand pts cl (fuel + 1) L (i :: rest) =
            expand pts cl fuel L rest := by
          simp only [expand]
          rw [if_neg (show ¬L.getD i none = none from hlab)]
        have hclos' : ClosedUpTo pts L rest := by
          intro j hj hlj m hm
          rcases hclos j hj hlj m hm with h | h
          · exact Or.inl h
          · rcases List.mem_cons.mp h with rfl | h
            · exact Or.inl hlab
            · exact Or.inr h
        rw [heq]
        exact ih L rest hlen (fun j hj => hstk j (List.mem_cons_of_mem _ hj))
          (by rw [List.length_cons] at hfuel; omega)
          (fun j hj => hso j (List.mem_cons_of_mem _ hj)) hclos' hprov

theorem lab_lt_of_some (L : List (Option ℕ)) (k c : ℕ) (h : lab L k = some c) :
    k < L.length := by
  by_contra hk
  push_neg at hk
  unfold lab at h
  rw [List.getD_eq_getElem?_getD, List.getElem?_eq_none hk] at h
  simp at h

/-- Labelled-core coherence survives one cluster expansion: the freshly
labelled points all carry the new id, and full closure before the
expansion keeps old and new clusters from touching. -/
theorem coher_step (pts : List (ℚ × ℚ)) (cl : ℕ) (L L' : List (Option ℕ))
    (hlen' : L'.length = pts.length)
    (hm : Mono L L') (hn : NewOnly cl L L') (hclos : ClosedUpTo pts L [])
    (hc : Coher pts L) : Coher pts L' := by
  have hsplit : ∀ j c, lab L' j = some c →
      lab L j = some c ∨ (c = cl ∧ lab L j = none) := by
    intro j c h
    rcases hn j c h with h' | h'
    · exact Or.inl h'
    · cases hLj : lab L j with
      | none => exact Or.inr ⟨h', rfl⟩
      | some e =>
        have he := hm j e hLj
        rw [h] at he
        exact Or.inl he.symm
  intro j k c d hj hk hlj hlk hjk
  have hjn : j < pts.length := mem_nbrs_lt pts k j hjk
  rcases hsplit j c hlj with h1 | ⟨hc1, h1⟩
  · rcases hsplit k d hlk with h2 | ⟨hc2, h2⟩
    · exact hc j k c d hj hk h1 h2 hjk
    · -- `j` old, `k` new: closure of `j` forces `k` labelled in `L`
      exfalso
      have hkn : k < pts.length := by
        rw [← hlen']
        exact lab_lt_of_some L' k d hlk
      have hkj : k ∈ nbrs pts j := nbrs_symm pts k j hkn hjk
      rcases hclos j hj (by rw [h1]; simp) k hkj with h' | h'
      · exact h' h2
      · cases h'
  · rcases hsplit k d hlk with h2 | ⟨hc2, h2⟩
    · -- `k` old, `j` new: closure of `k` forces `j` labelled in `L`
      exfalso
      rcases hclos k hk (by rw [h2]; simp) j hjk with h' | h'
      · exact h' h1
      · cases h'
    · rw [hc1, hc2]

/-- The outer DBSCAN loop preserves provenance, full closure and
coherence of the labelling. -/
theorem dbscanGo_spec (pts : List (ℚ × ℚ)) :
    ∀ (seeds : List ℕ) (L : List (Option ℕ)) (cl : ℕ),
      L.length = pts.length →
      (∀ i ∈ seeds, i < pts.length) →
      Prov pts L → ClosedUpTo pts L [] → Coher pts L →
      Prov pts (dbscanGo pts seeds L cl) ∧
      ClosedUpTo pts (dbscanGo pts seeds L cl) [] ∧
      Coher pts (dbscanGo pts seeds L cl) ∧
      (dbscanGo pts seeds L cl).length = pts.length := by
  intro seeds
  induction seeds with
  | nil => exact fun L cl hlen _ hprov hclos hcoh => ⟨hprov, hclos, hcoh, hlen⟩
  | cons i is ih =>
    intro L cl hlen hseeds hprov hclos hcoh
    have hin : i < pts.length := hseeds i (List.mem_cons_self _ _)
    by_cases hguard : L.getD i none = none ∧ isCore pts i
    · have heq : dbscanGo pts (i :: is) L cl =
          dbscanGo pts is (expand pts cl (expandFuel pts.length) L [i]) (cl + 1) := by
        simp only [dbscanGo]
        rw [if_pos hguard]
      have hfuel : [i].length +
          (pts.length + 1) * L.countP (fun o => o.isNone) ≤ expandFuel pts.length := by
        have hu : L.countP (fun o => o.isNone) ≤ pts.length := by
          rw [← hlen]
          exact List.countP_le_length _
        have hmul := Nat.mul_le_mul_left (pts.length + 1) hu
        have hexp : (pts.length + 1) * pts.length + 1 ≤ expandFuel pts.length := by
          unfold expandFuel
          ring_nf
          omega
        simp only [List.length_singleton]
        omega
      obtain ⟨hm, hn, hprov', hclos', hlen'⟩ :=
        expand_spec pts cl i hguard.2 hin (expandFuel pts.length) L [i] hlen
          (fun j hj => by rw [List.mem_singleton.mp hj]; exact hin)
          hfuel
          (fun j hj => Or.inr (List.mem_singleton.mp hj))
          (fun j hj hlj m hm' => by
            rcases hclos j hj hlj m hm' with h | h
            · exact Or.inl h
            · cases h)
          hprov
      have hcoh' : Coher pts (expand pts cl (expandFuel pts.length) L [i]) :=
        coher_step pts cl L _ (by rw [hlen']; exact hlen) hm hn hclos hcoh
      rw [heq]
      exact ih _ (cl + 1) (by rw [hlen']; exact hlen)
        (fun j hj => hseeds j (List.mem_cons_of_mem _ hj)) hprov' hclos' hcoh'
    · have heq : dbscanGo pts (i :: is) L cl = dbscanGo pts is L cl := by
        simp only [dbscanGo]
        rw [if_neg hguard]
      rw [heq]
      exact ih L cl hlen (fun j hj => hseeds j (List.mem_cons_of_mem _ hj))
        hprov hclos hcoh

/-- The final DBSCAN labelling satisfies provenance, closure and
coherence, and has one label slot per point. -/
theorem dbscanLabels_spec (pts : List (ℚ × ℚ)) :
    Prov pts (dbscanLabels pts) ∧ ClosedUpTo pts (dbscanLabels pts) [] ∧
    Coher pts (dbscanLabels pts) ∧ (dbscanLabels pts).length = pts.length := by
  have hrep : ∀ i, lab (List.replicate pts.length (none : Option ℕ)) i = none := by
    intro i
    unfold lab
    rw [List.getD_eq_getElem?_getD, List.getElem?_replicate]
    split <;> rfl
  exact dbscanGo_spec pts (List.range pts.length) (List.replicate pts.length none) 0
    (by simp) (fun i hi => List.mem_range.mp hi)
    (fun i c h => absurd h (by rw [hrep i]; simp))
    (fun j _ hlj _ _ => absurd (hrep j) hlj)
    (fun j k c d _ _ hlj _ _ => absurd hlj (by rw [hrep j]; simp))

/-- Every non-noise cluster in the final labelling has at least
`min_samples = 3` members. -/
theorem dbscan_cluster_size (pts : List (ℚ × ℚ)) (c : ℕ)
    (h : ∃ j, lab (dbscanLabels pts) j = some c) :
    3 ≤ (clusterMembers pts (dbscanLabels pts) c).length := by
  obtain ⟨hprov, hclos, hcoh, hlen⟩ := dbscanLabels_spec pts
  obtain ⟨j, hj⟩ := h
  obtain ⟨k₁, hk₁core, hk₁lab, _⟩ := hprov j c hj
  have hk₁n : k₁ < pts.length := by
    rw [← hlen]
    exact lab_lt_of_some _ k₁ c hk₁lab
  have hmemall : ∀ m ∈ nbrs pts k₁, lab (dbscanLabels pts) m = some c := by
    intro m hm
    have hmn : m < pts.length := mem_nbrs_lt pts k₁ m hm
    have hlabm : lab (dbscanLabels pts) m ≠ none := by
      rcases hclos k₁ hk₁core (by rw [hk₁lab]; simp) m hm with h' | h'
      · exact h'
      · cases h'
    obtain ⟨d, hd⟩ : ∃ d, lab (dbscanLabels pts) m = some d := by
      cases hLm : lab (dbscanLabels pts) m with
      | none => exact absurd hLm hlabm
      | some d => exact ⟨d, rfl⟩
    by_cases hcm : isCore pts m
    · have hdc : d = c := hcoh m k₁ d c hcm hk₁core hd hk₁lab hm
      rw [hd, hdc]
    · by_cases hdc : d = c
      · rw [hd, hdc]
      · exfalso
        obtain ⟨k₂, hk₂core, hk₂lab, hk₂n⟩ := hprov m d hd
        have hk₂lt : k₂ < pts.length := by
          rw [← hlen]
          exact lab_lt_of_some _ k₂ d hk₂lab
        have h1 : m ∈ nbrs pts m := mem_nbrs_self pts m hmn
        have h2 : k₁ ∈ nbrs pts m := nbrs_symm pts k₁ m hk₁n hm
        have h3 : k₂ ∈ nbrs pts m := nbrs_symm pts k₂ m hk₂lt hk₂n
        have hne1 : m ≠ k₁ := by
          intro he
          rw [he, hk₁lab] at hd
          exact hdc (Option.some.inj hd).symm
        have hne2 : m ≠ k₂ := by
          intro he
          rw [he] at hcm
          exact hcm hk₂core
        have hne3 : k₁ ≠ k₂ := by
          intro he
          rw [← he, hk₁lab] at hk₂lab
          exact hdc (Option.some.inj hk₂lab).symm
        have hsub : ({m, k₁, k₂} : Finset ℕ) ⊆ (nbrs pts m).toFinset := by
          intro x hx
          rw [List.mem_toFinset]
          rcases Finset.mem_insert.mp hx with rfl | hx
          · exact h1
          · rcases Finset.mem_insert.mp hx with rfl | hx
            · exact h2
            · rw [Finset.mem_singleton.mp hx]
              exact h3
        have hcard : ({m, k₁, k₂} : Finset ℕ).card = 3 := by
          rw [Finset.card_insert_of_not_mem (by simp [hne1, hne2]),
            Finset.card_insert_of_not_mem (by simp [hne3]), Finset.card_singleton]
        apply hcm
        calc (3 : ℕ) = ({m, k₁, k₂} : Finset ℕ).card := hcard.symm
          _ ≤ (nbrs pts m).toFinset.card := Finset.card_le_card hsub
          _ = (nbrs pts m).length := by
              rw [List.toFinset_card_of_nodup (nbrs_nodup pts m)]
  have hsub2 : (nbrs pts k₁).toFinset ⊆
      (clusterMembers pts (dbscanLabels pts) c).toFinset := by
    intro x hx
    rw [List.mem_toFinset] at hx ⊢
    unfold clusterMembers
    rw [List.mem_filter, List.mem_range]
    exact ⟨mem_nbrs_lt pts k₁ x hx, decide_eq_true (hmemall x hx)⟩
  calc (3 : ℕ) ≤ (nbrs pts k₁).length := hk₁core
    _ = (nbrs pts k₁).toFinset.card := by
        rw [List.toFinset_card_of_nodup (nbrs_nodup pts k₁)]
    _ ≤ (clusterMembers pts (dbscanLabels pts) c).toFinset.card :=
        Finset.card_le_card hsub2
    _ ≤ (clusterMembers pts (dbscanLabels pts) c).length := List.toFinset_card_le _

/-- C9: the hotspot clusterer is a total function; empty and single-point
inputs yield the empty hotspot list; and every returned hotspot comes
from a cluster with at least 3 members, carries that cluster's member
count, has centroid equal to the arithmetic mean of its members'
coordinates, and has intensity exactly `min 1 (count / 10)`, hence in
`[0, 1]`. -/
theorem hotspot_clusterer_shape :
    ∀ pts : List (ℚ × ℚ),
      (pts = [] → identifyHotspots pts = []) ∧
      (∀ p, pts = [p] → identifyHotspots pts = []) ∧
      ∀ h ∈ identifyHotspots pts,
        ∃ c, c ∈ clusterIds (dbscanLabels pts) ∧
          h = hotspotOf pts (clusterMembers pts (dbscanLabels pts) c) ∧
          3 ≤ h.count ∧
          h.lat = meanQ ((clusterMembers pts (dbscanLabels pts) c).map
            (fun i => (pts.getD i (0, 0)).1)) ∧
          h.lng = meanQ ((clusterMembers pts (dbscanLabels pts) c).map
            (fun i => (pts.getD i (0, 0)).2)) ∧
          h.intensity = min 1 ((h.count : ℚ) / 10) ∧
          0 ≤ h.intensity ∧ h.intensity ≤ 1 := by
  intro pts
  refine ⟨?_, ?_, ?_⟩
  · intro h
    subst h
    rfl
  · intro p h
    subst h
    have hnc : ¬isCore [p] 0 := by
      intro hcore
      have h1 : (nbrs [p] 0).length ≤ 1 := by
        unfold nbrs
        calc (List.filter _ (List.range ([p] : List (ℚ × ℚ)).length)).length ≤
            (List.range ([p] : List (ℚ × ℚ)).length).length :=
              List.length_filter_le _ _
          _ = 1 := by simp
      have h2 : 3 ≤ (nbrs [p] 0).length := hcore
      omega
    have hL : dbscanLabels [p] = [none] := by
      show dbscanGo [p] [0] [none] 0 = [none]
      simp [dbscanGo, hnc]
    simp [identifyHotspots, hL, clusterIds]
  · intro h hmem
    by_cases hempty : pts.isEmpty
    · simp [identifyHotspots, hempty] at hmem
    · simp only [identifyHotspots, hempty, Bool.false_eq_true, if_false] at hmem
      obtain ⟨c, hc, rfl⟩ := List.mem_map.mp hmem
      have hex : ∃ j, lab (dbscanLabels pts) j = some c := by
        unfold clusterIds at hc
        have hc' := List.mem_dedup.mp hc
        obtain ⟨o, ho, hoc⟩ := List.mem_filterMap.mp hc'
        obtain ⟨jdx, hjlt, hje⟩ := List.mem_iff_getElem.mp ho
        refine ⟨jdx, ?_⟩
        unfold lab
        rw [List.getD_eq_getElem?_getD, List.getElem?_eq_getElem hjlt, hje]
        rw [show o = some c from hoc]
        rfl
      refine ⟨c, hc, rfl, dbscan_cluster_size pts c hex, rfl, rfl, rfl, ?_, ?_⟩
      · show (0 : ℚ) ≤ min 1 _
        refine le_min (by norm_num) ?_
        positivity
      · show min (1 : ℚ) _ ≤ 1
        exact min_le_left _ _

/-- Witness for C9 at concrete inputs: empty and singleton inputs give no
hotspots, and on four in-`eps` collinear points the theorem produces the
single expected hotspot with its cluster, count 4, centroid and
intensity 0.4. -/
theorem hotspot_clusterer_shape_witness :
    identifyHotspots ([] : List (ℚ × ℚ)) = [] ∧
    identifyHotspots [((5 : ℚ), (5 : ℚ))] = [] ∧
    ∃ c, c ∈ clusterIds (dbscanLabels samplePoints) ∧
      (⟨3 / 200000, 0, 2 / 5, 4⟩ : Hotspot) =
        hotspotOf samplePoints (clusterMembers samplePoints
          (dbscanLabels samplePoints) c) ∧
      3 ≤ (⟨3 / 200000, 0, 2 / 5, 4⟩ : Hotspot).count ∧
      (⟨3 / 200000, 0, 2 / 5, 4⟩ : Hotspot).lat =
        meanQ ((clusterMembers samplePoints (dbscanLabels samplePoints) c).map
          (fun i => (samplePoints.getD i (0, 0)).1)) ∧
      (⟨3 / 200000, 0, 2 / 5, 4⟩ : Hotspot).lng =
        meanQ ((clusterMembers samplePoints (dbscanLabels samplePoints) c).map
          (fun i => (samplePoints.getD i (0, 0)).2)) ∧
      (⟨3 / 200000, 0, 2 / 5, 4⟩ : Hotspot).intensity =
        min 1 (((⟨3 / 200000, 0, 2 / 5, 4⟩ : Hotspot).count : ℚ) / 10) ∧
      (0 : ℚ) ≤ (⟨3 / 200000, 0, 2 / 5, 4⟩ : Hotspot).intensity ∧
      (⟨3 / 200000, 0, 2 / 5, 4⟩ : Hotspot).intensity ≤ 1 := by
  refine ⟨(hotspot_clusterer_shape []).1 rfl,
    (hotspot_clusterer_shape [((5 : ℚ), (5 : ℚ))]).2.1 _ rfl, ?_⟩
  exact (hotspot_clusterer_shape samplePoints).2.2 ⟨3 / 200000, 0, 2 / 5, 4⟩
    (by decide)

end Sih
